import Mathlib

/-!
Verification of the Rectangle Tile Cache and Load-State Coordinator of the
OSMObjects map viewer. The JavaScript sources are shallowly embedded below:
JS Maps and localStorage become association lists over String keys, JS Sets
become duplicate-free String lists, Date.now timestamps become Int values in
milliseconds, and the exact grid arithmetic is carried out over the rationals.
Each embedded definition names the source function it was translated from.
-/

namespace OSMObjects

/-! ## Association lists: the model of JS Map objects and of localStorage -/

/-- Lookup of a key in an association list; models Map.get and
localStorage.getItem (first binding wins; real maps are duplicate-free). -/
def lookupA {α : Type} : List (String × α) → String → Option α
  | [], _ => none
  | (k', v) :: rest, k => if k' = k then some v else lookupA rest k

/-- Insert or overwrite a binding; models Map.set and localStorage.setItem. -/
def setA {α : Type} : List (String × α) → String → α → List (String × α)
  | [], k, v => [(k, v)]
  | (k', v') :: rest, k, v =>
      if k' = k then (k, v) :: rest else (k', v') :: setA rest k v

/-- Delete every binding of a key; models Map.delete and
localStorage.removeItem (a JS map holds at most one binding per key). -/
def removeA {α : Type} (l : List (String × α)) (k : String) : List (String × α) :=
  l.filter (fun p => p.1 ≠ k)

/-- Membership in a string set; models Set.has. -/
def memS (l : List String) (k : String) : Bool := l.contains k

/-- Add to a string set; models Set.add (no duplicate is created). -/
def addS (l : List String) (k : String) : List String :=
  if l.contains k then l else l ++ [k]

/-- Delete from a string set; models Set.delete. -/
def removeS (l : List String) (k : String) : List String :=
  l.filter (fun x => x ≠ k)

/-! ## Rectangle manager: in-memory tile state (src/js/rectangle_manager.js) -/

/-- Opaque tile payload (parsed OSM elements); its structure is irrelevant. -/
abbrev Payload := String

/-- RECTANGLE_CONFIG.MAX_RETRY_ATTEMPTS. -/
def MAX_RETRY_ATTEMPTS : Nat := 3

/-- RECTANGLE_CONFIG.RETRY_DELAY_MS. -/
def RETRY_DELAY_MS : Int := 5000

/-- A failedRectangles record: attempts and lastFailTime. -/
structure FailInfo where
  attempts : Nat
  lastFailTime : Int
deriving DecidableEq

/-- Status field of a loadedRectangles record; the source only ever writes
the string loaded into it. -/
inductive RectStatus where
  | loaded
deriving DecidableEq

/-- A loadedRectangles record (the bounds field, recomputable from the id,
is not modelled). -/
structure RectInfo where
  data : Payload
  timestamp : Int
  status : RectStatus
deriving DecidableEq

/-- The three module-level collections of rectangle_manager.js. -/
structure RectState where
  loadedRectangles : List (String × RectInfo)
  loadingRectangles : List String
  failedRectangles : List (String × FailInfo)
deriving DecidableEq

/-- The empty initial state of the three collections. -/
def emptyRectState : RectState := ⟨[], [], []⟩

/-- Translation of shouldRetryRectangle (rectangle_manager.js lines 325-336;
identical in src/unnamed/part_005 lines 156-167): true when no failure
record exists, otherwise attempts below the cap and the delay elapsed. -/
def shouldRetryRectangle (failed : List (String × FailInfo)) (id : String)
    (now : Int) : Bool :=
  match lookupA failed id with
  | none => true
  | some f =>
      decide (f.attempts < MAX_RETRY_ATTEMPTS) &&
      decide (now - f.lastFailTime > RETRY_DELAY_MS)

/-- Translation of markRectangleLoading (rectangle_manager.js lines 342-345).
The updateLoadingOverlays call only redraws map overlays and is not part of
the state model. -/
def markRectangleLoading (s : RectState) (id : String) : RectState :=
  { s with loadingRectangles := addS s.loadingRectangles id }

/-- Remove the first occurrence of a pattern from a character list; the JS
expression replacing a pattern by the empty string touches only the first
occurrence. -/
def removeFirstSub (pat : List Char) : List Char → List Char
  | [] => []
  | c :: rest =>
      if pat.isPrefixOf (c :: rest) then (c :: rest).drop pat.length
      else c :: removeFirstSub pat rest

/-- Whether getRectangleBounds(id) succeeds: after the first lowzoom suffix
occurrence is removed, the id must split on the underscore into exactly
three parts (rectangle_manager.js lines 224-239). A JS split keeps empty
parts, so the part count is three exactly when the id holds exactly two
underscore characters. -/
def rectangleIdParses (id : String) : Bool :=
  ((removeFirstSub "_lowzoom".data id.data).filter (fun c => c = '_')).length = 2

/-- Translation of markRectangleLoaded (rectangle_manager.js lines 352-371):
the id leaves the loading set and the failure map first; the loaded record
is then written. On a malformed id getRectangleBounds throws after the two
removals, so the record write is skipped in that case. The localStorage
write-through and overlay redraw are modelled elsewhere / not modelled. -/
def markRectangleLoaded (s : RectState) (id : String) (d : Payload)
    (now : Int) : RectState :=
  let s1 := { s with
    loadingRectangles := removeS s.loadingRectangles id,
    failedRectangles := removeA s.failedRectangles id }
  if rectangleIdParses id then
    { s1 with loadedRectangles := setA s1.loadedRectangles id ⟨d, now, .loaded⟩ }
  else s1

/-- Translation of markRectangleFailed (rectangle_manager.js lines 377-387):
the id leaves the loading set; attempts is incremented (from 0 when no
record existed) and lastFailTime is set to now. -/
def markRectangleFailed (s : RectState) (id : String) (now : Int) : RectState :=
  let current := (lookupA s.failedRectangles id).getD ⟨0, 0⟩
  { s with
    loadingRectangles := removeS s.loadingRectangles id,
    failedRectangles := setA s.failedRectangles id ⟨current.attempts + 1, now⟩ }

/-- Translation of isRectangleLoading (rectangle_manager.js lines 316-318). -/
def isRectangleLoading (s : RectState) (id : String) : Bool :=
  memS s.loadingRectangles id

/-- The in-memory half of isRectangleLoaded (rectangle_manager.js lines
288-309): a memory record with status loaded short-circuits to true before
localStorage is consulted. -/
def loadedInMemory (s : RectState) (id : String) : Bool :=
  match lookupA s.loadedRectangles id with
  | some info => info.status = RectStatus.loaded
  | none => false

/-- One call against a fixed rectangle id, tagged with the Date.now value
observed during the call. -/
inductive RectOp where
  | markLoading
  | markLoaded (d : Payload)
  | markFailed
deriving DecidableEq

/-- Apply one timed call to the state. -/
def applyRectOp (id : String) (s : RectState) : RectOp × Int → RectState
  | (.markLoading, _) => markRectangleLoading s id
  | (.markLoaded d, t) => markRectangleLoaded s id d t
  | (.markFailed, t) => markRectangleFailed s id t

/-- Run a finite sequence of timed calls for one rectangle id. -/
def runRectOps (s : RectState) (id : String) (ops : List (RectOp × Int)) :
    RectState :=
  ops.foldl (applyRectOp id) s

/-- Translation of the state effect of retryFailedRectangle
(rectangle_overlay.js lines 293-307): the failure record of the id is
deleted unconditionally, then loadSingleRectangleData is invoked (the
returned flag records that the fetch was reissued; no retry-policy check
guards it). The overlay bookkeeping is rendering and not modelled. -/
def retryFailedRectangle (s : RectState) (id : String) : RectState × Bool :=
  ({ s with failedRectangles := removeA s.failedRectangles id }, true)

/-- Translation of the click handler installed by updateLoadingOverlays
(rectangle_manager.js lines 576-584): loadSingleRectangleData is invoked
only when shouldRetryRectangle allows it; the returned flag records whether
the fetch was reissued. The state is not mutated by the handler itself. -/
def errorOverlayClickRetry (s : RectState) (id : String) (now : Int) :
    RectState × Bool :=
  if shouldRetryRectangle s.failedRectangles id now then (s, true) else (s, false)

/-! ## Persistent store: the model of localStorage

localStorage is one global keyed namespace shared by three cache profiles.
A stored string either parses as a JSON cache entry (constructor ok, with
the timestamp, the recorded byte size and the payload), parses as the
part_005 metadata object (constructor meta), or fails JSON.parse
(constructor bad). -/

/-- One entry of the part_005 cache metadata object: size and timestamp. -/
structure MetaEntry where
  size : Nat
  timestamp : Int
deriving DecidableEq

/-- A value stored in localStorage, as seen through JSON.parse. -/
inductive StoredVal where
  | ok (timestamp : Int) (sz : Nat) (data : Payload)
  | meta (entries : List (String × MetaEntry))
  | bad
deriving DecidableEq

/-- The localStorage key space. -/
abbrev Store := List (String × StoredVal)

/-- The JS startsWith check of a key against a namespace, carried out over
the character lists of the two strings. -/
def strStartsWith (k ns : String) : Bool := ns.data.isPrefixOf k.data

/-- RECTANGLE_CONFIG.LOCALSTORAGE_PREFIX of rectangle_manager.js, the key
namespace of the rectangle cache profile. -/
def rectNs : String := "osm_rect_cache_"

/-- CACHE_CONFIG.KEY_PREFIX of src/unnamed/part_001, the key namespace of
the general OSM response cache profile. -/
def osmNs : String := "osm_cache_"

/-- CACHE_CONFIG.CACHE_VERSION of src/unnamed/part_001. -/
def cacheVersion : String := "1.0"

/-- CACHE_CONFIG.CACHE_KEY_PREFIX of src/unnamed/part_005, the key
namespace of the large-payload cache profile. -/
def objNs : String := "osmobjects_cache_"

/-- CACHE_CONFIG.CACHE_METADATA_KEY of src/unnamed/part_005. -/
def metadataKey : String := "osmobjects_cache_metadata"

/-- The 24 hour TTL in milliseconds, shared by rectangle_manager.js
(CACHE_TTL_HOURS of 24) and part_001 (CACHE_CONFIG.TTL_MS). -/
def TTL_MS : Int := 24 * 60 * 60 * 1000

/-- CACHE_CONFIG.CACHE_EXPIRY_MS of part_005: 7 days in milliseconds. -/
def CACHE_EXPIRY_MS : Int := 7 * 24 * 60 * 60 * 1000

/-- CACHE_CONFIG.MAX_ENTRIES of part_001. -/
def MAX_ENTRIES : Nat := 1000

/-- CACHE_CONFIG.MAX_CACHE_SIZE_MB of part_005. -/
def MAX_CACHE_SIZE_MB : Nat := 50

/-- The part_005 byte cap: MAX_CACHE_SIZE_MB times 1024 times 1024. -/
def MAX_CACHE_SIZE_BYTES : Nat := MAX_CACHE_SIZE_MB * 1024 * 1024

/-- The eviction target of manageCacheSize: the JS expression multiplying
maxSizeBytes by 0.8 evaluates to exactly 41943040 in binary64. -/
def EVICT_TARGET_BYTES : Nat := 41943040

/-- The default maxToRemove of cleanOldCacheEntries: the JS expression
flooring MAX_ENTRIES times 0.3 evaluates to exactly 300 in binary64. -/
def DEFAULT_MAX_TO_REMOVE : Nat := 300

/-- Translation of getCacheKey (part_001 lines 24-27). -/
def getCacheKey (id : String) (isLowZoom : Bool) : String :=
  osmNs ++ "v" ++ cacheVersion ++ "_" ++ id ++ (if isLowZoom then "_lowzoom" else "")

/-- The rectangle-profile key of an id (getLocalStorageKey,
rectangle_manager.js lines 45-47). -/
def rectKey (id : String) : String := rectNs ++ id

/-- The large-payload-profile key of an id (part_005, CACHE_KEY_PREFIX
concatenated with the rectangle id). -/
def objKey (id : String) : String := objNs ++ id

/-- Translation of isRectangleCacheValid (rectangle_manager.js lines 55-59):
the entry is valid while now minus timestamp stays strictly below the TTL. -/
def isRectangleCacheValid (now ts ttlMs : Int) : Bool :=
  now - ts < ttlMs

/-- Translation of loadRectangleFromLocalStorage (rectangle_manager.js lines
91-118). A JSON.parse failure is caught and returns null without removing
the entry; an invalid (expired) entry is removed and returns null; a valid
entry is returned with the store untouched. A metadata object under this
key space cannot occur (the namespaces are disjoint); it would parse with
an undefined timestamp, fail the validity check and be removed. -/
def loadRectangleFromLocalStorage (store : Store) (id : String) (now : Int) :
    Option (Int × Payload) × Store :=
  match lookupA store (rectKey id) with
  | none => (none, store)
  | some (.ok ts _ d) =>
      if isRectangleCacheValid now ts TTL_MS then (some (ts, d), store)
      else (none, removeA store (rectKey id))
  | some (.meta _) => (none, removeA store (rectKey id))
  | some .bad => (none, store)

/-- Translation of isRectangleLoaded (rectangle_manager.js lines 288-309):
a loaded memory record answers true at once; otherwise the persistent entry
is read through (possibly deleting it when expired) and, on a hit, promoted
into the memory cache with its stored timestamp. -/
def isRectangleLoaded (s : RectState) (store : Store) (id : String)
    (now : Int) : Bool × RectState × Store :=
  if loadedInMemory s id then (true, s, store)
  else
    match loadRectangleFromLocalStorage store id now with
    | (some (ts, d), store') =>
        (true,
         { s with loadedRectangles := setA s.loadedRectangles id ⟨d, ts, .loaded⟩ },
         store')
    | (none, store') => (false, s, store')

/-- Translation of getCachedData (part_001 lines 51-81). Expiry holds when
now minus timestamp strictly exceeds the TTL, in which case the entry is
removed; a JSON.parse failure is caught and returns null without removal.
A metadata object under this key space cannot occur (disjoint namespaces);
it would parse with an undefined timestamp, never satisfy the strict
comparison, and return its undefined data field, modelled as none. -/
def getCachedData (store : Store) (id : String) (isLowZoom : Bool)
    (now : Int) : Option Payload × Store :=
  let key := getCacheKey id isLowZoom
  match lookupA store key with
  | none => (none, store)
  | some (.ok ts _ d) =>
      if now - ts > TTL_MS then (none, removeA store key)
      else (some d, store)
  | some (.meta _) => (none, store)
  | some .bad => (none, store)

/-- Translation of getCacheMetadata (part_005 lines 594-610): the entries
field of the stored metadata object, or the default empty table. Only the
entries field steers behaviour; totalSize and created are never read by the
eviction pass and are not modelled. -/
def getCacheMetadata (store : Store) : List (String × MetaEntry) :=
  match lookupA store metadataKey with
  | some (.meta m) => m
  | _ => []

/-- Translation of removeCacheMetadata (part_005 lines 577-588): when the
id has a metadata entry, the entry is deleted and the metadata object is
written back; otherwise nothing is written. -/
def removeCacheMetadata (store : Store) (id : String) : Store :=
  let m := getCacheMetadata store
  match lookupA m id with
  | some _ => setA store metadataKey (.meta (removeA m id))
  | none => store

/-- Translation of loadFromLocalStorageCache (part_005 lines 431-456).
Expiry holds when now minus timestamp strictly exceeds the 7 day bound; an
expired entry is removed together with its metadata entry; a JSON.parse
failure is caught and returns null without removal. A metadata object under
an entry key cannot occur; it would parse with an undefined timestamp,
never satisfy the strict comparison, and return undefined data (none). -/
def loadFromLocalStorageCache (store : Store) (id : String) (now : Int) :
    Option Payload × Store :=
  match lookupA store (objKey id) with
  | none => (none, store)
  | some (.ok ts _ d) =>
      if now - ts > CACHE_EXPIRY_MS then
        (none, removeCacheMetadata (removeA store (objKey id)) id)
      else (some d, store)
  | some (.meta _) => (none, store)
  | some .bad => (none, store)

/-- The keysToRemove collection of cleanExpiredLocalStorage
(rectangle_manager.js lines 134-152): every key of the rectangle namespace
whose value fails to parse or fails the validity check. -/
def expiredRectKeys (store : Store) (now : Int) : List String :=
  store.filterMap (fun p =>
    if strStartsWith p.1 rectNs then
      match p.2 with
      | .ok ts _ _ => if isRectangleCacheValid now ts TTL_MS then none else some p.1
      | .meta _ => some p.1
      | .bad => some p.1
    else none)

/-- Translation of cleanExpiredLocalStorage (rectangle_manager.js lines
124-165): the collected keys are removed and their count is returned. -/
def cleanExpiredLocalStorage (store : Store) (now : Int) : Store × Nat :=
  ((expiredRectKeys store now).foldl removeA store,
   (expiredRectKeys store now).length)

/-- Translation of clearRectangleCache (rectangle_manager.js lines 413-435):
the three memory collections are dropped and, when requested, every key of
the rectangle namespace is removed from localStorage. -/
def clearRectangleCache (_s : RectState) (store : Store)
    (clearLocalStorage : Bool) : RectState × Store :=
  let store' :=
    if clearLocalStorage then
      ((store.map Prod.fst).filter (fun k => strStartsWith k rectNs)).foldl removeA store
    else store
  (emptyRectState, store')

/-- The localStorage half of clearRectangleCache, for stating frame facts. -/
def clearRectangleCacheLS (store : Store) : Store :=
  (clearRectangleCache emptyRectState store true).2

/-- Translation of clearCache (part_001 lines 283-303): every key of the
general OSM cache namespace is removed; their count is returned. -/
def clearCache (store : Store) : Store × Nat :=
  let keysToRemove := (store.map Prod.fst).filter (fun k => strStartsWith k osmNs)
  (keysToRemove.foldl removeA store, keysToRemove.length)

/-- Translation of clearLocalStorageCache (part_005 lines 482-501): every
key of the large-payload namespace is removed, then the metadata key. -/
def clearLocalStorageCache (store : Store) : Store :=
  let keys := (store.map Prod.fst).filter (fun k => strStartsWith k objNs)
  removeA (keys.foldl removeA store) metadataKey

/-- Translation of getCacheSize (part_001 lines 201-214): the number of
keys in the general OSM cache namespace. -/
def getCacheSize (store : Store) : Nat :=
  ((store.map Prod.fst).filter (fun k => strStartsWith k osmNs)).length

/-- One element of the entries array built by cleanOldCacheEntries. -/
structure CleanEntry where
  key : String
  timestamp : Int
  isExpired : Bool
deriving DecidableEq

/-- The classification of one localStorage pair by the collection phase of
cleanOldCacheEntries (part_001 lines 229-252): a key of the namespace
yields an element; an unparseable value yields timestamp 0 and counts as
expired. A metadata object cannot occur under this namespace; it would
parse with an undefined timestamp and a false comparison result, modelled
as timestamp 0, not expired. -/
def collectOne (now : Int) (p : String × StoredVal) : Option CleanEntry :=
  if strStartsWith p.1 osmNs then
    match p.2 with
    | .ok ts _ _ => some ⟨p.1, ts, decide (now - ts > TTL_MS)⟩
    | .meta _ => some ⟨p.1, 0, false⟩
    | .bad => some ⟨p.1, 0, true⟩
  else none

/-- The entries array built by cleanOldCacheEntries before sorting. -/
def collectCleanEntries (store : Store) (now : Int) : List CleanEntry :=
  store.filterMap (collectOne now)

/-- The entries array of cleanOldCacheEntries is sorted ascending by
timestamp; the comparator subtracting timestamps is total and transitive. -/
instance : IsTotal CleanEntry (fun a b => a.timestamp ≤ b.timestamp) :=
  ⟨fun a b => Int.le_total a.timestamp b.timestamp⟩

/-- Transitivity of the cleanOldCacheEntries comparator. -/
instance : IsTrans CleanEntry (fun a b => a.timestamp ≤ b.timestamp) :=
  ⟨fun _ _ _ hab hbc => le_trans hab hbc⟩

/-- One removal pass of cleanOldCacheEntries (part_001 lines 259-273): walk
the sorted entries, removing those whose isExpired flag equals the pass
selector while the removal budget lasts. -/
def removePass (expiredPass : Bool) (maxToRemove : Nat) :
    List CleanEntry → Store → Nat → Store × Nat
  | [], store, removed => (store, removed)
  | e :: rest, store, removed =>
      if e.isExpired = expiredPass ∧ removed < maxToRemove then
        removePass expiredPass maxToRemove rest (removeA store e.key) (removed + 1)
      else
        removePass expiredPass maxToRemove rest store removed

/-- The keys a removal pass deletes, in order: a specification device used
to characterise removePass in the theorems below. -/
def passKeys (expiredPass : Bool) (maxToRemove : Nat) :
    List CleanEntry → Nat → List String
  | [], _ => []
  | e :: rest, removed =>
      if e.isExpired = expiredPass ∧ removed < maxToRemove then
        e.key :: passKeys expiredPass maxToRemove rest (removed + 1)
      else
        passKeys expiredPass maxToRemove rest removed

/-- Translation of cleanOldCacheEntries (part_001 lines 221-277): collect
all namespaced entries, sort them ascending by timestamp (the JS comparator
subtracts timestamps), remove expired entries first, then the oldest fresh
entries, never exceeding maxToRemove removals in total. -/
def cleanOldCacheEntries (store : Store) (now : Int) (maxToRemove : Nat) :
    Store × Nat :=
  let entries :=
    (collectCleanEntries store now).insertionSort
      (fun a b => a.timestamp ≤ b.timestamp)
  let r1 := removePass true maxToRemove entries store 0
  removePass false maxToRemove entries r1.1 r1.2

/-- The byte size a stored value contributes to the quota model of the
storage medium: the recorded size of a cache entry, nothing for the small
metadata object or a corrupted remnant. -/
def storeBytes (store : Store) : Nat :=
  store.foldl
    (fun acc p => acc + (match p.2 with | .ok _ sz _ => sz | _ => 0)) 0

/-- Outcome of a localStorage.setItem call under the quota model. -/
inductive SetItemResult where
  | stored (s : Store)
  | quotaExceeded
deriving DecidableEq

/-- The storage medium of the browser: setItem succeeds when the resulting
total byte usage fits under the quota cap, and otherwise throws the
QuotaExceededError condition. The cap is an environmental parameter of the
external storage collaborator. -/
def setItemQ (cap : Nat) (store : Store) (k : String) (v : StoredVal) :
    SetItemResult :=
  let s' := setA store k v
  if storeBytes s' ≤ cap then .stored s' else .quotaExceeded

/-- Translation of setCachedData (part_001 lines 90-134). The entry records
the call timestamp; sz is its serialized byte length under the quota model.
When the namespace already holds MAX_ENTRIES keys, cleanOldCacheEntries
runs first. The setItem attempt may hit the quota: the catch block then
runs cleanOldCacheEntries once more and enters the retry block, but the
names cacheKey and cacheEntry referenced there were declared with const
inside the try block and are not in scope in the catch block, so the retry
throws a ReferenceError before reaching localStorage.setItem; the inner
catch swallows it and the function returns false without retrying the
write. -/
def setCachedData (cap : Nat) (store : Store) (id : String) (d : Payload)
    (sz : Nat) (isLowZoom : Bool) (now : Int) : Bool × Store :=
  let key := getCacheKey id isLowZoom
  let entry : StoredVal := .ok now sz d
  let store1 :=
    if MAX_ENTRIES ≤ getCacheSize store then
      (cleanOldCacheEntries store now DEFAULT_MAX_TO_REMOVE).1
    else store
  match setItemQ cap store1 key entry with
  | .stored s' => (true, s')
  | .quotaExceeded =>
      (false, (cleanOldCacheEntries store1 now DEFAULT_MAX_TO_REMOVE).1)

/-- The byte contribution of one localStorage pair to the sizeBytes field
of getLocalStorageCacheStats: the recorded size of a parseable namespaced
entry, zero otherwise. -/
def objContrib (p : String × StoredVal) : Nat :=
  if strStartsWith p.1 objNs then
    match p.2 with
    | .ok _ sz _ => sz
    | _ => 0
  else 0

/-- The sizeBytes field of getLocalStorageCacheStats (part_005 lines
507-537): the sum of the recorded size fields over all parseable entries of
the large-payload namespace; corrupted entries are skipped and the metadata
object has no size field and adds zero. -/
def localStorageCacheSizeBytes (store : Store) : Nat :=
  store.foldl
    (fun acc p =>
      if strStartsWith p.1 objNs then
        acc + (match p.2 with | .ok _ sz _ => sz | _ => 0)
      else acc) 0

/-- The manageCacheSize metadata snapshot is sorted ascending by timestamp;
the comparator subtracting timestamps is total and transitive. -/
instance : IsTotal (String × MetaEntry) (fun a b => a.2.timestamp ≤ b.2.timestamp) :=
  ⟨fun a b => Int.le_total a.2.timestamp b.2.timestamp⟩

/-- Transitivity of the manageCacheSize comparator. -/
instance : IsTrans (String × MetaEntry) (fun a b => a.2.timestamp ≤ b.2.timestamp) :=
  ⟨fun _ _ _ hab hbc => le_trans hab hbc⟩

/-- The removal loop of manageCacheSize (part_005 lines 630-640): walk the
metadata snapshot sorted oldest first; stop as soon as the initial usage
minus the removed bytes reaches the eviction target, otherwise remove the
entry and its metadata and accumulate its recorded size. -/
def evictLoop (sizeBytes : Nat) :
    List (String × MetaEntry) → Store → Nat → Store
  | [], store, _ => store
  | (id, m) :: rest, store, removedSize =>
      if sizeBytes - removedSize ≤ EVICT_TARGET_BYTES then store
      else
        evictLoop sizeBytes rest
          (removeCacheMetadata (removeA store (objKey id)) id)
          (removedSize + m.size)

/-- Translation of manageCacheSize (part_005 lines 615-649): when the
namespaced usage exceeds the byte cap, the metadata entries are sorted
ascending by timestamp (the JS comparator subtracts timestamps) and the
removal loop runs; otherwise nothing happens. -/
def manageCacheSize (store : Store) : Store :=
  let sizeBytes := localStorageCacheSizeBytes store
  if sizeBytes > MAX_CACHE_SIZE_BYTES then
    let entries :=
      (getCacheMetadata store).insertionSort
        (fun a b => a.2.timestamp ≤ b.2.timestamp)
    evictLoop sizeBytes entries store 0
  else store

/-- An abstract view of one large-payload cache entry, used to build
consistent stores: the saveToLocalStorageCache write path stores the entry
under its namespaced key and mirrors id, size and timestamp into the
metadata object. -/
structure CacheItem where
  id : String
  sz : Nat
  ts : Int
deriving DecidableEq

/-- A store in the shape maintained by the part_005 write path: one
namespaced entry per item plus the metadata object mirroring every item. -/
def mkCacheStore (xs : List CacheItem) : Store :=
  xs.map (fun it => (objKey it.id, StoredVal.ok it.ts it.sz "")) ++
    [(metadataKey, StoredVal.meta (xs.map (fun it => (it.id, ⟨it.sz, it.ts⟩))))]

/-! ## Grid addressing in exact arithmetic (rectangle_manager.js) -/

/-- RECTANGLE_CONFIG.GRID_SIZE_DEG as an exact rational. -/
def GRID_SIZE_DEG : ℚ := 1 / 100

/-- Four-decimal formatting of a rational, as the toFixed call of the
source: round to the nearest multiple of one ten-thousandth and print with
exactly four decimals. The grid multiples formatted by the source are exact
multiples of one hundredth, so no rounding or tie ever arises there. -/
def toFixed4 (q : ℚ) : String :=
  let n : Int := round (q * 10000)
  let m : Nat := n.natAbs
  (if n < 0 then "-" else "") ++ toString (m / 10000) ++ "." ++
    (toString (m % 10000 + 10000)).drop 1

/-- Translation of getRectangleId (rectangle_manager.js lines 212-216) in
exact arithmetic: floor the coordinates to the grid, scale back, format
both grid coordinates to four decimals. -/
def getRectangleId (lat lng g : ℚ) : String :=
  "rect_" ++ toFixed4 ((⌊lat / g⌋ : ℤ) * g) ++ "_" ++ toFixed4 ((⌊lng / g⌋ : ℤ) * g)

/-- A map bounds record. -/
structure RBounds where
  north : ℚ
  south : ℚ
  east : ℚ
  west : ℚ

/-- Translation of divideAreaIntoRectangles (rectangle_manager.js lines
247-264) in exact arithmetic. The JS loop runs lat from the floored start
in steps of g while strictly below the ceiled end, so with a positive g
row i visits lat equal to (floor of south over g, plus i) times g for
every i below the index difference; likewise for the columns. -/
def divideAreaIntoRectangles (b : RBounds) (g : ℚ) : List String :=
  let latLo := ⌊b.south / g⌋
  let latHi := ⌈b.north / g⌉
  let lngLo := ⌊b.west / g⌋
  let lngHi := ⌈b.east / g⌉
  (List.range (latHi - latLo).toNat).flatMap (fun (i : ℕ) =>
    (List.range (lngHi - lngLo).toNat).map (fun (j : ℕ) =>
      getRectangleId ((latLo + (i : ℤ)) * g) ((lngLo + (j : ℤ)) * g) g))

/-! ## Helper lemmas about the association-list and set models -/

theorem lookupA_setA_self {α : Type} (l : List (String × α)) (k : String) (v : α) :
    lookupA (setA l k v) k = some v := by
  induction l with
  | nil => simp [setA, lookupA]
  | cons p rest ih =>
      obtain ⟨k0, v0⟩ := p
      by_cases h : k0 = k
      · subst h; simp [setA, lookupA]
      · simp [setA, lookupA, h, ih]

theorem lookupA_setA_ne {α : Type} (l : List (String × α)) (k k' : String)
    (v : α) (h : ¬ k' = k) : lookupA (setA l k' v) k = lookupA l k := by
  induction l with
  | nil => simp [setA, lookupA, h]
  | cons p rest ih =>
      obtain ⟨k0, v0⟩ := p
      by_cases h0 : k0 = k'
      · subst h0; simp [setA, lookupA, h]
      · simp [setA, lookupA, h0, ih]

theorem removeA_cons {α : Type} (k0 : String) (v0 : α)
    (rest : List (String × α)) (k : String) :
    removeA ((k0, v0) :: rest) k =
      if k0 = k then removeA rest k else (k0, v0) :: removeA rest k := by
  by_cases h : k0 = k <;> simp [removeA, h]

theorem lookupA_removeA_self {α : Type} (l : List (String × α)) (k : String) :
    lookupA (removeA l k) k = none := by
  induction l with
  | nil => rfl
  | cons p rest ih =>
      obtain ⟨k0, v0⟩ := p
      rw [removeA_cons]
      by_cases h : k0 = k
      · simpa [h] using ih
      · simpa [lookupA, h] using ih

theorem lookupA_removeA_ne {α : Type} (l : List (String × α)) (k k' : String)
    (h : ¬ k' = k) : lookupA (removeA l k') k = lookupA l k := by
  induction l with
  | nil => rfl
  | cons p rest ih =>
      obtain ⟨k0, v0⟩ := p
      rw [removeA_cons]
      by_cases h0 : k0 = k'
      · subst h0
        have h1 : ¬ k0 = k := h
        simp [lookupA, h1, ih]
      · simp only [h0, if_false, lookupA, ih]

theorem lookupA_removeA_none {α : Type} (l : List (String × α)) (k k' : String)
    (h : lookupA l k = none) : lookupA (removeA l k') k = none := by
  by_cases h0 : k' = k
  · subst h0; exact lookupA_removeA_self l k'
  · rw [lookupA_removeA_ne l k k' h0]; exact h

theorem lookupA_foldl_removeA_none {α : Type} (ks : List String)
    (l : List (String × α)) (k : String) (h : lookupA l k = none) :
    lookupA (ks.foldl removeA l) k = none := by
  induction ks generalizing l with
  | nil => exact h
  | cons k0 rest ih => exact ih _ (lookupA_removeA_none l k k0 h)

theorem lookupA_foldl_removeA_mem {α : Type} (ks : List String)
    (l : List (String × α)) (k : String) (h : k ∈ ks) :
    lookupA (ks.foldl removeA l) k = none := by
  induction ks generalizing l with
  | nil => cases h
  | cons k0 rest ih =>
      rcases List.mem_cons.mp h with h0 | h0
      · subst h0
        exact lookupA_foldl_removeA_none rest _ k (lookupA_removeA_self l k)
      · exact ih _ h0

theorem lookupA_foldl_removeA_not_mem {α : Type} (ks : List String)
    (l : List (String × α)) (k : String) (h : k ∉ ks) :
    lookupA (ks.foldl removeA l) k = lookupA l k := by
  induction ks generalizing l with
  | nil => rfl
  | cons k0 rest ih =>
      have hne : ¬ k0 = k := fun hh => h (by simp [hh])
      have hrest : k ∉ rest := fun hh => h (List.mem_cons_of_mem _ hh)
      rw [List.foldl_cons, ih _ hrest, lookupA_removeA_ne l k k0 hne]

theorem removeS_cons (x : String) (rest : List String) (k : String) :
    removeS (x :: rest) k =
      if x = k then removeS rest k else x :: removeS rest k := by
  by_cases h : x = k <;> simp [removeS, h]

theorem memS_removeS_self (l : List String) (k : String) :
    memS (removeS l k) k = false := by
  simp only [memS, List.contains, List.elem_eq_mem, decide_eq_false_iff_not,
    removeS]
  simp [List.mem_filter]

/-! ## C1: the retry and backoff decision -/

/-- C1: shouldRetryRectangle returns true when no failure record exists for
the id; returns false whenever the recorded attempts count reaches
MAX_RETRY_ATTEMPTS, regardless of elapsed time; and otherwise returns true
exactly when the time since the last failure strictly exceeds
RETRY_DELAY_MS. -/
theorem C1_shouldRetryRectangle (failed : List (String × FailInfo))
    (id : String) (now : Int) :
    (lookupA failed id = none → shouldRetryRectangle failed id now = true) ∧
    (∀ f : FailInfo, lookupA failed id = some f →
      MAX_RETRY_ATTEMPTS ≤ f.attempts →
      shouldRetryRectangle failed id now = false) ∧
    (∀ f : FailInfo, lookupA failed id = some f →
      f.attempts < MAX_RETRY_ATTEMPTS →
      (shouldRetryRectangle failed id now = true ↔
        RETRY_DELAY_MS < now - f.lastFailTime)) := by
  refine ⟨fun h => ?_, fun f hf ha => ?_, fun f hf ha => ?_⟩
  · unfold shouldRetryRectangle
    rw [h]
  · unfold shouldRetryRectangle
    rw [hf]
    simp [Nat.not_lt.mpr ha]
  · unfold shouldRetryRectangle
    rw [hf]
    simp [ha]

/-- C1 witness: a record with three attempts is not retried even long after
the delay, and a record with one attempt is retried once the delay has
strictly elapsed. -/
theorem C1_shouldRetryRectangle_witness :
    shouldRetryRectangle [("rect_52.5000_13.4000", ⟨3, 0⟩)]
      "rect_52.5000_13.4000" 100000000 = false ∧
    shouldRetryRectangle [("rect_52.5000_13.4000", ⟨1, 0⟩)]
      "rect_52.5000_13.4000" 5001 = true := by
  constructor
  · exact (C1_shouldRetryRectangle _ _ _).2.1 ⟨3, 0⟩ (by decide) (by decide)
  · exact ((C1_shouldRetryRectangle _ _ _).2.2 ⟨1, 0⟩ (by decide) (by decide)).mpr
      (by decide)

/-! ## C2: loading versus terminal state -/

theorem isRectangleLoading_markRectangleLoaded (s : RectState) (id : String)
    (d : Payload) (t : Int) :
    isRectangleLoading (markRectangleLoaded s id d t) id = false := by
  unfold markRectangleLoaded
  by_cases h : rectangleIdParses id = true
  · simp [h, isRectangleLoading, memS_removeS_self]
  · simp [h, isRectangleLoading, memS_removeS_self]

theorem isRectangleLoading_markRectangleFailed (s : RectState) (id : String)
    (t : Int) :
    isRectangleLoading (markRectangleFailed s id t) id = false := by
  unfold markRectangleFailed
  simp [isRectangleLoading, memS_removeS_self]

/-- C2 counterexample: the claimed exclusivity after arbitrary call
sequences fails. After markRectangleFailed then markRectangleLoading, the
tile is simultaneously in the loading set and holds a failure record (the
ordinary retry path does exactly this); after markRectangleLoaded then
markRectangleLoading, the tile is reported both loading and loaded. -/
theorem C2_counterexample :
    (let s := runRectOps emptyRectState "rect_52.5000_13.4000"
        [(.markFailed, 1000), (.markLoading, 2000)]
     isRectangleLoading s "rect_52.5000_13.4000" = true ∧
     lookupA s.failedRectangles "rect_52.5000_13.4000" = some ⟨1, 1000⟩) ∧
    (let s := runRectOps emptyRectState "rect_52.5000_13.4000"
        [(.markLoaded "payload", 1000), (.markLoading, 2000)]
     (isRectangleLoaded s [] "rect_52.5000_13.4000" 2000).1 = true ∧
     isRectangleLoading s "rect_52.5000_13.4000" = true) := by
  decide

/-- C2 amended: markRectangleLoaded and markRectangleFailed each remove the
id from the loading set before recording the terminal outcome, so after
any call sequence whose last call for the id is one of these two, the tile
is not reported loading (hence never both loading and loaded, and never
both loading and holding a failure record). A later markRectangleLoading
can, however, coexist with a retained terminal record: that is the retry
path shown by the counterexample. -/
theorem C2_markTerminal_clears_loading (s : RectState) (id : String)
    (ops : List (RectOp × Int)) (d : Payload) (t : Int) :
    isRectangleLoading (runRectOps s id (ops ++ [(.markLoaded d, t)])) id = false ∧
    isRectangleLoading (runRectOps s id (ops ++ [(.markFailed, t)])) id = false := by
  constructor
  · rw [runRectOps, List.foldl_append]
    exact isRectangleLoading_markRectangleLoaded _ _ _ _
  · rw [runRectOps, List.foldl_append]
    exact isRectangleLoading_markRectangleFailed _ _ _

/-! ## C3: the manual retry paths -/

/-- C3 counterexample: with two recorded attempts and the delay not yet
elapsed, the overlay manual retry deletes the failure record outright, so
the recorded attempts count is discarded rather than preserved; and the
manager click handler applies the shouldRetryRectangle delay check instead
of bypassing it, refusing the refetch inside the delay window. -/
theorem C3_counterexample :
    lookupA (RectState.failedRectangles
        ⟨[], [], [("rect_52.5000_13.4000", ⟨2, 1000⟩)]⟩)
      "rect_52.5000_13.4000" = some ⟨2, 1000⟩ ∧
    lookupA (retryFailedRectangle
        ⟨[], [], [("rect_52.5000_13.4000", ⟨2, 1000⟩)]⟩
        "rect_52.5000_13.4000").1.failedRectangles
      "rect_52.5000_13.4000" = none ∧
    (errorOverlayClickRetry
        ⟨[], [], [("rect_52.5000_13.4000", ⟨2, 1000⟩)]⟩
        "rect_52.5000_13.4000" 1500).2 = false := by
  decide

/-- C3 amended: the overlay manual retry reissues the fetch unconditionally
(bypassing both the delay check and the attempts cap) and deletes the
failure record of the tile, discarding the recorded attempts count rather
than preserving it; it leaves the loading set and the loaded map untouched.
The manager click handler instead reissues the fetch exactly when
shouldRetryRectangle allows it, so it does not bypass the delay check. -/
theorem C3_manual_retry (s : RectState) (id : String) (now : Int) :
    (retryFailedRectangle s id).2 = true ∧
    lookupA (retryFailedRectangle s id).1.failedRectangles id = none ∧
    (retryFailedRectangle s id).1.loadingRectangles = s.loadingRectangles ∧
    (retryFailedRectangle s id).1.loadedRectangles = s.loadedRectangles ∧
    (errorOverlayClickRetry s id now).2 =
      shouldRetryRectangle s.failedRectangles id now := by
  refine ⟨rfl, lookupA_removeA_self _ _, rfl, rfl, ?_⟩
  unfold errorOverlayClickRetry
  by_cases h : shouldRetryRectangle s.failedRectangles id now <;> simp [h]

/-! ## C5 and C6: read-path expiry and corruption handling -/

theorem lookupA_removeCacheMetadata_ne (store : Store) (id k : String)
    (h : ¬ metadataKey = k) :
    lookupA (removeCacheMetadata store id) k = lookupA store k := by
  unfold removeCacheMetadata
  rcases hm : lookupA (getCacheMetadata store) id with _ | m
  · simp [hm]
  · simp only [hm]
    exact lookupA_setA_ne _ _ _ _ h

theorem lookupA_removeCacheMetadata_removeA (store : Store) (id : String) :
    lookupA (removeCacheMetadata (removeA store (objKey id)) id) (objKey id) =
      none := by
  by_cases hm : metadataKey = objKey id
  · have h0 : getCacheMetadata (removeA store (objKey id)) = [] := by
      unfold getCacheMetadata
      rw [hm, lookupA_removeA_self]
    unfold removeCacheMetadata
    rw [h0]
    exact lookupA_removeA_self _ _
  · rw [lookupA_removeCacheMetadata_ne _ _ _ hm]
    exact lookupA_removeA_self _ _

/-- C5 counterexample: an entry whose age equals the TTL exactly is removed
and reported absent by loadRectangleFromLocalStorage, although the claim
promises that every entry at or below the TTL is returned unchanged; the
rectangle-profile validity check is strict in the other direction. -/
theorem C5_counterexample :
    loadRectangleFromLocalStorage [(rectKey "rect_1", .ok 0 100 "d")]
      "rect_1" TTL_MS = (none, []) := by
  decide

/-- C5 amended: expiry is decided on the read path by the pure comparison
of the entry age against the TTL, but the boundary differs per profile. The
general OSM cache (getCachedData) and the large-payload cache
(loadFromLocalStorageCache) return the data with the store untouched while
the age is at or below their TTL, and delete the entry and report absent
when the age strictly exceeds it; the rectangle cache
(loadRectangleFromLocalStorage) returns the entry only while the age is
strictly below the TTL and deletes it, reporting absent, as soon as the age
reaches the TTL. -/
theorem C5_read_expiry (store : Store) (id : String) (isLowZoom : Bool)
    (now ts : Int) (sz : Nat) (d : Payload) :
    (lookupA store (getCacheKey id isLowZoom) = some (.ok ts sz d) →
      (now - ts ≤ TTL_MS →
        getCachedData store id isLowZoom now = (some d, store)) ∧
      (now - ts > TTL_MS →
        (getCachedData store id isLowZoom now).1 = none ∧
        lookupA (getCachedData store id isLowZoom now).2
          (getCacheKey id isLowZoom) = none)) ∧
    (lookupA store (objKey id) = some (.ok ts sz d) →
      (now - ts ≤ CACHE_EXPIRY_MS →
        loadFromLocalStorageCache store id now = (some d, store)) ∧
      (now - ts > CACHE_EXPIRY_MS →
        (loadFromLocalStorageCache store id now).1 = none ∧
        lookupA (loadFromLocalStorageCache store id now).2 (objKey id) = none)) ∧
    (lookupA store (rectKey id) = some (.ok ts sz d) →
      (now - ts < TTL_MS →
        loadRectangleFromLocalStorage store id now = (some (ts, d), store)) ∧
      (now - ts ≥ TTL_MS →
        (loadRectangleFromLocalStorage store id now).1 = none ∧
        lookupA (loadRectangleFromLocalStorage store id now).2 (rectKey id) = none)) := by
  refine ⟨fun h => ⟨fun hle => ?_, fun hgt => ?_⟩,
          fun h => ⟨fun hle => ?_, fun hgt => ?_⟩,
          fun h => ⟨fun hlt => ?_, fun hge => ?_⟩⟩
  · simp only [getCachedData, h]
    rw [if_neg (not_lt.mpr hle)]
  · simp only [getCachedData, h]
    rw [if_pos hgt]
    exact ⟨rfl, lookupA_removeA_self _ _⟩
  · simp only [loadFromLocalStorageCache, h]
    rw [if_neg (not_lt.mpr hle)]
  · simp only [loadFromLocalStorageCache, h]
    rw [if_pos hgt]
    exact ⟨rfl, lookupA_removeCacheMetadata_removeA _ _⟩
  · simp only [loadRectangleFromLocalStorage, h]
    rw [if_pos (by simp [isRectangleCacheValid, hlt])]
  · simp only [loadRectangleFromLocalStorage, h]
    rw [if_neg (by simp [isRectangleCacheValid]; exact hge)]
    exact ⟨rfl, lookupA_removeA_self _ _⟩

/-- C5 witness: a fresh entry is returned unchanged by getCachedData, and
an entry of age exactly the TTL is reported absent by
loadRectangleFromLocalStorage. -/
theorem C5_read_expiry_witness :
    getCachedData [(getCacheKey "rect_1" false, .ok 0 4 "d")] "rect_1" false
      1000 = (some "d", [(getCacheKey "rect_1" false, .ok 0 4 "d")]) ∧
    (loadRectangleFromLocalStorage [(rectKey "rect_1", .ok 0 4 "d")] "rect_1"
      TTL_MS).1 = none := by
  constructor
  · exact ((C5_read_expiry [(getCacheKey "rect_1" false, .ok 0 4 "d")]
      "rect_1" false 1000 0 4 "d").1 (by decide)).1 (by decide)
  · exact (((C5_read_expiry [(rectKey "rect_1", .ok 0 4 "d")]
      "rect_1" false TTL_MS 0 4 "d").2.2 (by decide)).2 (by decide)).1

/-- C6 counterexample: a corrupted entry is not removed by the lookup: the
read reports absent but the entry stays in storage, where the claim says
the lookup behaves like an expired-entry lookup and removes it. -/
theorem C6_counterexample :
    getCachedData [(getCacheKey "rect_1" false, .bad)] "rect_1" false 0 =
      (none, [(getCacheKey "rect_1" false, .bad)]) ∧
    lookupA
      (getCachedData [(getCacheKey "rect_1" false, .bad)] "rect_1" false 0).2
      (getCacheKey "rect_1" false) = some .bad := by
  decide

/-- C6 amended: on the read path a corrupted entry only makes the lookup
return absent; the entry itself is left in storage untouched, in all three
cache profiles. Corrupted entries are reclaimed by the sweep passes
instead: cleanExpiredLocalStorage removes every unparseable entry of the
rectangle namespace, and cleanOldCacheEntries classifies unparseable
entries of the OSM namespace as expired with timestamp zero, removing them
in its expired pass. -/
theorem C6_corrupted_entries (store : Store) (id : String) (isLowZoom : Bool)
    (now : Int) (k : String) :
    (lookupA store (getCacheKey id isLowZoom) = some .bad →
      getCachedData store id isLowZoom now = (none, store)) ∧
    (lookupA store (rectKey id) = some .bad →
      loadRectangleFromLocalStorage store id now = (none, store)) ∧
    (lookupA store (objKey id) = some .bad →
      loadFromLocalStorageCache store id now = (none, store)) ∧
    ((k, StoredVal.bad) ∈ store → strStartsWith k rectNs = true →
      lookupA (cleanExpiredLocalStorage store now).1 k = none) ∧
    ((k, StoredVal.bad) ∈ store → strStartsWith k osmNs = true →
      (⟨k, 0, true⟩ : CleanEntry) ∈ collectCleanEntries store now) := by
  refine ⟨fun h => ?_, fun h => ?_, fun h => ?_, fun hmem hns => ?_,
    fun hmem hns => ?_⟩
  · simp [getCachedData, h]
  · simp [loadRectangleFromLocalStorage, h]
  · simp [loadFromLocalStorageCache, h]
  · have hk : k ∈ expiredRectKeys store now := by
      refine List.mem_filterMap.mpr ⟨(k, StoredVal.bad), hmem, ?_⟩
      simp [hns]
    exact lookupA_foldl_removeA_mem _ _ _ hk
  · refine List.mem_filterMap.mpr ⟨(k, StoredVal.bad), hmem, ?_⟩
    simp [collectOne, hns]

/-- C6 witness: the amended behaviour at a one-entry corrupted store: every
profile read leaves the store unchanged, and the rectangle sweep removes a
corrupted namespaced entry. -/
theorem C6_corrupted_entries_witness :
    loadRectangleFromLocalStorage [(rectKey "rect_1", .bad)] "rect_1" 0 =
      (none, [(rectKey "rect_1", .bad)]) ∧
    lookupA (cleanExpiredLocalStorage [(rectKey "rect_1", .bad)] 0).1
      (rectKey "rect_1") = none := by
  constructor
  · exact (C6_corrupted_entries [(rectKey "rect_1", .bad)] "rect_1" false 0
      (rectKey "rect_1")).2.1 (by decide)
  · exact (C6_corrupted_entries [(rectKey "rect_1", .bad)] "rect_1" false 0
      (rectKey "rect_1")).2.2.2.1 (by decide) (by decide)

/-! ## C4: the quota-exceeded retry path of setCachedData -/

/-- C4: evaluation of setCachedData at a failing input. The first write
attempt exceeds the storage quota; cleanOldCacheEntries then frees enough
space for the entry to fit, as the second conjunct certifies, yet the call
returns false and the entry is absent from the final store. In the source
the retry inside the catch block references the try-scoped const bindings
cacheKey and cacheEntry, which are not in scope there, so the retry throws
a ReferenceError that the inner catch swallows: the write is never retried
against storage even once. -/
theorem C4_quota_retry_bug :
    setCachedData 10 [(getCacheKey "rect_old" false, .ok (-100000000) 6 "x")]
      "rect_new" "d" 6 false 0 = (false, []) ∧
    storeBytes (setA
      (cleanOldCacheEntries
        [(getCacheKey "rect_old" false, .ok (-100000000) 6 "x")] 0
        DEFAULT_MAX_TO_REMOVE).1
      (getCacheKey "rect_new" false) (.ok 0 6 "d")) ≤ 10 := by
  decide

/-! ## C10: removals stay inside their key namespace -/

theorem strStartsWith_append (ns s : String) :
    strStartsWith (ns ++ s) ns = true := by
  simp [strStartsWith, String.data_append, List.isPrefixOf_iff_prefix]

theorem ne_of_strStartsWith {k1 k2 ns : String}
    (h1 : strStartsWith k1 ns = true) (h2 : strStartsWith k2 ns = false) :
    ¬ k1 = k2 := by
  intro h
  subst h
  rw [h1] at h2
  cases h2

theorem metadataKey_ns : strStartsWith metadataKey objNs = true := by decide

theorem objKey_ns (id : String) : strStartsWith (objKey id) objNs = true :=
  strStartsWith_append objNs id

theorem rectKey_ns (id : String) : strStartsWith (rectKey id) rectNs = true :=
  strStartsWith_append rectNs id

theorem mem_expiredRectKeys_ns (store : Store) (now : Int) (k : String)
    (h : k ∈ expiredRectKeys store now) : strStartsWith k rectNs = true := by
  rcases List.mem_filterMap.mp h with ⟨⟨k0, v0⟩, _, hf⟩
  by_cases hns : strStartsWith k0 rectNs = true
  · cases v0 with
    | ok ts sz d =>
        by_cases hv : isRectangleCacheValid now ts TTL_MS = true
        · simp [hns, hv] at hf
        · simp [hns, hv] at hf
          subst hf
          exact hns
    | meta m =>
        simp only [hns, if_true, Option.some.injEq] at hf
        subst hf
        exact hns
    | bad =>
        simp only [hns, if_true, Option.some.injEq] at hf
        subst hf
        exact hns
  · simp [hns] at hf

theorem collectOne_key (now : Int) (p : String × StoredVal) (e : CleanEntry)
    (h : collectOne now p = some e) :
    e.key = p.1 ∧ strStartsWith p.1 osmNs = true := by
  unfold collectOne at h
  by_cases hns : strStartsWith p.1 osmNs = true
  · rw [if_pos hns] at h
    rcases p with ⟨k0, v0⟩
    cases v0 with
    | ok ts sz d =>
        injection h with h
        rw [← h]
        exact ⟨rfl, hns⟩
    | meta m =>
        injection h with h
        rw [← h]
        exact ⟨rfl, hns⟩
    | bad =>
        injection h with h
        rw [← h]
        exact ⟨rfl, hns⟩
  · rw [if_neg hns] at h
    cases h

theorem collectCleanEntries_key_ns (store : Store) (now : Int) (e : CleanEntry)
    (h : e ∈ collectCleanEntries store now) :
    strStartsWith e.key osmNs = true := by
  rcases List.mem_filterMap.mp h with ⟨p, _, hf⟩
  rcases collectOne_key now p e hf with ⟨hk, hns⟩
  rw [hk]
  exact hns

theorem removePass_frame (b : Bool) (maxR : Nat) (L : List CleanEntry)
    (store : Store) (r : Nat) (k : String) (hL : ∀ e ∈ L, ¬ e.key = k) :
    lookupA (removePass b maxR L store r).1 k = lookupA store k := by
  induction L generalizing store r with
  | nil => rfl
  | cons e rest ih =>
      have hek := hL e (List.mem_cons_self _ _)
      have hrest : ∀ e' ∈ rest, ¬ e'.key = k :=
        fun e' he' => hL e' (List.mem_cons_of_mem _ he')
      unfold removePass
      by_cases hc : e.isExpired = b ∧ r < maxR
      · rw [if_pos hc, ih _ _ hrest, lookupA_removeA_ne _ _ _ hek]
      · rw [if_neg hc, ih _ _ hrest]

theorem evictLoop_frame (sizeBytes : Nat) (L : List (String × MetaEntry))
    (store : Store) (r : Nat) (k : String)
    (hk : strStartsWith k objNs = false) :
    lookupA (evictLoop sizeBytes L store r) k = lookupA store k := by
  induction L generalizing store r with
  | nil => rfl
  | cons p rest ih =>
      obtain ⟨id, m⟩ := p
      unfold evictLoop
      by_cases hb : sizeBytes - r ≤ EVICT_TARGET_BYTES
      · rw [if_pos hb]
      · rw [if_neg hb, ih _ _,
          lookupA_removeCacheMetadata_ne _ _ _ (ne_of_strStartsWith metadataKey_ns hk),
          lookupA_removeA_ne _ _ _ (ne_of_strStartsWith (objKey_ns id) hk)]

/-- C10: every operation that removes persistent-cache entries touches only
keys of its own configured namespace: clearing a profile, sweeping expired
entries and size-based eviction each leave the exact binding of every key
outside that namespace unchanged, including keys of the other profiles and
unrelated application keys. -/
theorem C10_namespaced_removal (store : Store) (now : Int) (k : String)
    (maxToRemove : Nat) :
    (strStartsWith k rectNs = false →
      lookupA (cleanExpiredLocalStorage store now).1 k = lookupA store k ∧
      lookupA (clearRectangleCacheLS store) k = lookupA store k) ∧
    (strStartsWith k osmNs = false →
      lookupA (clearCache store).1 k = lookupA store k ∧
      lookupA (cleanOldCacheEntries store now maxToRemove).1 k = lookupA store k) ∧
    (strStartsWith k objNs = false →
      lookupA (clearLocalStorageCache store) k = lookupA store k ∧
      lookupA (manageCacheSize store) k = lookupA store k) := by
  refine ⟨fun hk => ⟨?_, ?_⟩, fun hk => ⟨?_, ?_⟩, fun hk => ⟨?_, ?_⟩⟩
  · apply lookupA_foldl_removeA_not_mem
    intro hmem
    rw [mem_expiredRectKeys_ns store now k hmem] at hk
    cases hk
  · unfold clearRectangleCacheLS clearRectangleCache
    simp only [if_pos]
    apply lookupA_foldl_removeA_not_mem
    intro hmem
    rcases List.mem_filter.mp hmem with ⟨_, hpred⟩
    rw [hpred] at hk
    cases hk
  · apply lookupA_foldl_removeA_not_mem
    intro hmem
    rcases List.mem_filter.mp hmem with ⟨_, hpred⟩
    rw [hpred] at hk
    cases hk
  · simp only [cleanOldCacheEntries]
    have hL : ∀ e ∈ (collectCleanEntries store now).insertionSort
        (fun a b => a.timestamp ≤ b.timestamp), ¬ e.key = k := by
      intro e he
      have hmem : e ∈ collectCleanEntries store now :=
        ((collectCleanEntries store now).perm_insertionSort
          (fun a b => a.timestamp ≤ b.timestamp)).mem_iff.mp he
      exact ne_of_strStartsWith (collectCleanEntries_key_ns _ _ _ hmem) hk
    rw [removePass_frame _ _ _ _ _ _ hL, removePass_frame _ _ _ _ _ _ hL]
  · unfold clearLocalStorageCache
    rw [lookupA_removeA_ne _ _ _ (ne_of_strStartsWith metadataKey_ns hk)]
    apply lookupA_foldl_removeA_not_mem
    intro hmem
    rcases List.mem_filter.mp hmem with ⟨_, hpred⟩
    rw [hpred] at hk
    cases hk
  · unfold manageCacheSize
    by_cases hb : localStorageCacheSizeBytes store > MAX_CACHE_SIZE_BYTES
    · rw [if_pos hb]
      exact evictLoop_frame _ _ _ _ _ hk
    · rw [if_neg hb]

/-- C10 witness: with one foreign key, one rectangle entry and one
large-payload entry in storage, the expiry sweep and the size eviction
leave the foreign binding untouched. -/
theorem C10_namespaced_removal_witness :
    lookupA (cleanExpiredLocalStorage
      [("app_settings", .bad), (rectKey "rect_1", .ok 0 4 "d")]
      999999999999).1 "app_settings" =
      lookupA [("app_settings", .bad), (rectKey "rect_1", .ok 0 4 "d")]
        "app_settings" ∧
    lookupA (manageCacheSize
      [("app_settings", .bad), (rectKey "rect_1", .ok 0 4 "d")])
      "app_settings" =
      lookupA [("app_settings", .bad), (rectKey "rect_1", .ok 0 4 "d")]
        "app_settings" := by
  constructor
  · exact ((C10_namespaced_removal
      [("app_settings", .bad), (rectKey "rect_1", .ok 0 4 "d")]
      999999999999 "app_settings" DEFAULT_MAX_TO_REMOVE).1 (by decide)).1
  · exact ((C10_namespaced_removal
      [("app_settings", .bad), (rectKey "rect_1", .ok 0 4 "d")]
      999999999999 "app_settings" DEFAULT_MAX_TO_REMOVE).2.2 (by decide)).2

/-! ## C9: degenerate bounds in divideAreaIntoRectangles -/

/-- C9 counterexample: the all-zero bounds are degenerate (north equals
south and east equals west) yet divideAreaIntoRectangles returns no tile at
all: a grid-aligned degenerate edge gives an empty index range, because the
floored start equals the ceiled end and the loop body never runs. -/
theorem C9_counterexample :
    divideAreaIntoRectangles ⟨0, 0, 0, 0⟩ GRID_SIZE_DEG = [] := by
  simp [divideAreaIntoRectangles]

/-- C9 amended: divideAreaIntoRectangles returns one id per grid cell in
the outward-aligned index rectangle, so its length is the product of the
two index ranges. For a degenerate axis (north equal to south, or east
equal to west) the corresponding range is empty exactly when the collapsed
coordinate is grid-aligned (its quotient by the grid size is an integer),
and a single row or column otherwise: degenerate bounds therefore yield at
least one tile only when the collapsed coordinate is not grid-aligned and
the other axis spans at least one cell, and grid-aligned degenerate bounds
yield the empty list. -/
theorem C9_degenerate_bounds (b : RBounds) (g : ℚ) :
    ((divideAreaIntoRectangles b g).length =
      (⌈b.north / g⌉ - ⌊b.south / g⌋).toNat *
        (⌈b.east / g⌉ - ⌊b.west / g⌋).toNat) ∧
    (b.north = b.south → (∃ z : ℤ, b.south / g = (z : ℚ)) →
      (⌈b.north / g⌉ - ⌊b.south / g⌋).toNat = 0) ∧
    (b.north = b.south → (¬ ∃ z : ℤ, b.south / g = (z : ℚ)) →
      (⌈b.north / g⌉ - ⌊b.south / g⌋).toNat = 1) ∧
    (b.east = b.west → (∃ z : ℤ, b.west / g = (z : ℚ)) →
      (⌈b.east / g⌉ - ⌊b.west / g⌋).toNat = 0) ∧
    (b.east = b.west → (¬ ∃ z : ℤ, b.west / g = (z : ℚ)) →
      (⌈b.east / g⌉ - ⌊b.west / g⌋).toNat = 1) := by
  have hrange : ∀ x : ℚ, (∃ z : ℤ, x = (z : ℚ)) → (⌈x⌉ - ⌊x⌋).toNat = 0 := by
    rintro x ⟨z, rfl⟩
    simp
  have hrange1 : ∀ x : ℚ, (¬ ∃ z : ℤ, x = (z : ℚ)) → (⌈x⌉ - ⌊x⌋).toNat = 1 := by
    intro x hx
    have h1 : ⌊x⌋ < ⌈x⌉ := by
      by_contra hle
      push_neg at hle
      have hxc : x ≤ (⌈x⌉ : ℚ) := Int.le_ceil x
      have hcf : ((⌈x⌉ : ℤ) : ℚ) ≤ ((⌊x⌋ : ℤ) : ℚ) := by exact_mod_cast hle
      have hfx : ((⌊x⌋ : ℤ) : ℚ) ≤ x := Int.floor_le x
      exact hx ⟨⌊x⌋, le_antisymm (le_trans hxc hcf) hfx⟩
    have h2 : ⌈x⌉ ≤ ⌊x⌋ + 1 := Int.ceil_le_floor_add_one x
    have : ⌈x⌉ - ⌊x⌋ = 1 := by omega
    rw [this]
    rfl
  refine ⟨?_, fun hd hz => ?_, fun hd hz => ?_, fun hd hz => ?_, fun hd hz => ?_⟩
  · unfold divideAreaIntoRectangles
    rw [List.length_flatMap]
    have hconst : ∀ (n : Nat) (f : Nat → List String),
        (∀ i, (f i).length = n) → ∀ l : List Nat,
        (l.map (List.length ∘ f)).sum = l.length * n := by
      intro n f hf l
      induction l with
      | nil => simp
      | cons x xs ih => simp [ih, hf, Nat.succ_mul, Nat.add_comm]
    rw [hconst ((⌈b.east / g⌉ - ⌊b.west / g⌋).toNat) _
      (fun i => by rw [List.length_map, List.length_range]) _,
      List.length_range]
  · rw [hd]; exact hrange _ hz
  · rw [hd]; exact hrange1 _ hz
  · rw [hd]; exact hrange _ hz
  · rw [hd]; exact hrange1 _ hz

/-- C9 witness: degenerate bounds collapsed at a point half way between two
grid lines yield exactly one tile. -/
theorem C9_degenerate_bounds_witness :
    (divideAreaIntoRectangles ⟨1/200, 1/200, 1/200, 1/200⟩
      GRID_SIZE_DEG).length = 1 := by
  have hni : ¬ ∃ z : ℤ, ((1 : ℚ)/200) / GRID_SIZE_DEG = (z : ℚ) := by
    rw [show ((1 : ℚ)/200) / GRID_SIZE_DEG = 1/2 by norm_num [GRID_SIZE_DEG]]
    rintro ⟨z, hz⟩
    have h2 : (2 * z : ℤ) = 1 := by
      have : (2 : ℚ) * (z : ℚ) = 1 := by rw [← hz]; norm_num
      exact_mod_cast this
    omega
  have h := C9_degenerate_bounds ⟨1/200, 1/200, 1/200, 1/200⟩ GRID_SIZE_DEG
  rw [h.1]
  rw [h.2.2.1 rfl hni]

/-! ## C7: size-bound enforcement helper lemmas -/

theorem lookupA_append {α : Type} (l1 l2 : List (String × α)) (k : String) :
    lookupA (l1 ++ l2) k =
      (match lookupA l1 k with
       | some v => some v
       | none => lookupA l2 k) := by
  induction l1 with
  | nil => rfl
  | cons p rest ih =>
      obtain ⟨k0, v0⟩ := p
      by_cases h : k0 = k
      · simp [lookupA, h]
      · simp [lookupA, h, ih]

theorem objKey_inj {a b : String} (h : objKey a = objKey b) : a = b := by
  have hd : objNs.data ++ a.data = objNs.data ++ b.data := by
    simpa [objKey, String.data_append] using congrArg String.data h
  exact String.ext (List.append_cancel_left hd)

theorem metadataKey_def : metadataKey = objKey "metadata" := by decide

theorem objKey_ne_metadataKey {id : String} (h : ¬ id = "metadata") :
    ¬ objKey id = metadataKey := by
  intro he
  exact h (objKey_inj (he.trans metadataKey_def))

theorem objContrib_meta (k : String) (m : List (String × MetaEntry)) :
    objContrib (k, .meta m) = 0 := by
  unfold objContrib
  by_cases h : strStartsWith k objNs = true
  · rw [if_pos h]
  · rw [if_neg h]

theorem objContrib_bad (k : String) : objContrib (k, .bad) = 0 := by
  unfold objContrib
  by_cases h : strStartsWith k objNs = true
  · rw [if_pos h]
  · rw [if_neg h]

theorem localStorageCacheSizeBytes_eq_sum (store : Store) :
    localStorageCacheSizeBytes store = (store.map objContrib).sum := by
  have h : ∀ (l : Store) (a : Nat),
      l.foldl
        (fun acc p =>
          if strStartsWith p.1 objNs then
            acc + (match p.2 with | .ok _ sz _ => sz | _ => 0)
          else acc) a =
      a + (l.map objContrib).sum := by
    intro l
    induction l with
    | nil => intro a; simp
    | cons p rest ih =>
        intro a
        rw [List.foldl_cons, List.map_cons, List.sum_cons, ih]
        have hstep : (if strStartsWith p.1 objNs then
            a + (match p.2 with | .ok _ sz _ => sz | _ => 0)
          else a) = a + objContrib p := by
          unfold objContrib
          by_cases hns : strStartsWith p.1 objNs = true
          · rw [if_pos hns, if_pos hns]
          · rw [if_neg hns, if_neg hns]
            omega
        rw [hstep]
        omega
  have h0 := h store 0
  unfold localStorageCacheSizeBytes
  omega

theorem localStorageCacheSizeBytes_cons (p : String × StoredVal) (rest : Store) :
    localStorageCacheSizeBytes (p :: rest) =
      objContrib p + localStorageCacheSizeBytes rest := by
  rw [localStorageCacheSizeBytes_eq_sum, localStorageCacheSizeBytes_eq_sum,
    List.map_cons, List.sum_cons]

theorem removeA_eq_self_of_not_mem {α : Type} (l : List (String × α))
    (k : String) (h : k ∉ l.map Prod.fst) : removeA l k = l := by
  unfold removeA
  rw [List.filter_eq_self]
  intro p hp
  simp only [decide_eq_true_eq]
  intro hpk
  exact h (by rw [← hpk]; exact List.mem_map_of_mem Prod.fst hp)

theorem sizeBytes_removeA (store : Store) (k : String) (v : StoredVal)
    (hnd : (store.map Prod.fst).Nodup) (hl : lookupA store k = some v) :
    localStorageCacheSizeBytes (removeA store k) + objContrib (k, v) =
      localStorageCacheSizeBytes store := by
  induction store with
  | nil => cases hl
  | cons p rest ih =>
      obtain ⟨k0, v0⟩ := p
      rw [removeA_cons]
      rw [List.map_cons, List.nodup_cons] at hnd
      by_cases h : k0 = k
      · subst h
        simp only [lookupA, if_pos rfl] at hl
        injection hl with hl
        subst hl
        rw [if_pos rfl, removeA_eq_self_of_not_mem rest k0 hnd.1,
          localStorageCacheSizeBytes_cons]
        omega
      · rw [if_neg h, localStorageCacheSizeBytes_cons,
          localStorageCacheSizeBytes_cons]
        have hl' : lookupA rest k = some v := by
          simpa [lookupA, h] using hl
        have := ih hnd.2 hl'
        omega

theorem sizeBytes_setA_meta (store : Store) (k : String)
    (m : List (String × MetaEntry))
    (hold : ∀ ts sz d, ¬ lookupA store k = some (.ok ts sz d)) :
    localStorageCacheSizeBytes (setA store k (.meta m)) =
      localStorageCacheSizeBytes store := by
  induction store with
  | nil =>
      rw [show setA [] k (StoredVal.meta m) = [(k, .meta m)] from rfl,
        localStorageCacheSizeBytes_cons, objContrib_meta]
      exact Nat.zero_add _
  | cons p rest ih =>
      obtain ⟨k0, v0⟩ := p
      by_cases h : k0 = k
      · subst h
        rw [show setA ((k0, v0) :: rest) k0 (StoredVal.meta m) =
            (k0, StoredVal.meta m) :: rest from by simp [setA],
          localStorageCacheSizeBytes_cons, localStorageCacheSizeBytes_cons,
          objContrib_meta]
        have : ∀ ts sz d, ¬ v0 = StoredVal.ok ts sz d := by
          intro ts sz d hv
          exact hold ts sz d (by simp [lookupA, hv])
        cases v0 with
        | ok ts sz d => exact absurd rfl (this ts sz d)
        | meta m0 => rw [objContrib_meta]
        | bad => rw [objContrib_bad]
      · rw [show setA ((k0, v0) :: rest) k (StoredVal.meta m) =
            (k0, v0) :: setA rest k (StoredVal.meta m) from by simp [setA, h],
          localStorageCacheSizeBytes_cons, localStorageCacheSizeBytes_cons]
        have hold' : ∀ ts sz d, ¬ lookupA rest k = some (.ok ts sz d) := by
          intro ts sz d hv
          exact hold ts sz d (by simpa [lookupA, h] using hv)
        rw [ih hold']

theorem nodup_keys_removeA {α : Type} (l : List (String × α)) (k : String)
    (h : (l.map Prod.fst).Nodup) : ((removeA l k).map Prod.fst).Nodup :=
  h.sublist ((List.filter_sublist l).map Prod.fst)

theorem mem_keys_setA {α : Type} (l : List (String × α)) (k : String) (v : α)
    (x : String) (hx : x ∈ (setA l k v).map Prod.fst) :
    x ∈ l.map Prod.fst ∨ x = k := by
  induction l with
  | nil =>
      rw [show setA ([] : List (String × α)) k v = [(k, v)] from rfl] at hx
      simp at hx
      exact Or.inr hx
  | cons p rest ih =>
      obtain ⟨k0, v0⟩ := p
      by_cases h : k0 = k
      · subst h
        rw [show setA ((k0, v0) :: rest) k0 v = (k0, v) :: rest from by
          simp [setA]] at hx
        rw [List.map_cons] at hx
        rcases List.mem_cons.mp hx with hh | hh
        · exact Or.inl (by rw [List.map_cons]; exact List.mem_cons.mpr (Or.inl hh))
        · exact Or.inl (by rw [List.map_cons]; exact List.mem_cons.mpr (Or.inr hh))
      · rw [show setA ((k0, v0) :: rest) k v = (k0, v0) :: setA rest k v from by
          simp [setA, h]] at hx
        rw [List.map_cons] at hx
        rcases List.mem_cons.mp hx with hh | hh
        · exact Or.inl (by rw [List.map_cons]; exact List.mem_cons.mpr (Or.inl hh))
        · rcases ih hh with hh' | hh'
          · exact Or.inl (by rw [List.map_cons]; exact List.mem_cons.mpr (Or.inr hh'))
          · exact Or.inr hh'

theorem nodup_keys_setA {α : Type} (l : List (String × α)) (k : String) (v : α)
    (h : (l.map Prod.fst).Nodup) : ((setA l k v).map Prod.fst).Nodup := by
  induction l with
  | nil => simp [setA]
  | cons p rest ih =>
      obtain ⟨k0, v0⟩ := p
      rw [List.map_cons, List.nodup_cons] at h
      by_cases hk : k0 = k
      · subst hk
        rw [show setA ((k0, v0) :: rest) k0 v = (k0, v) :: rest from by
          simp [setA]]
        rw [List.map_cons, List.nodup_cons]
        exact h
      · rw [show setA ((k0, v0) :: rest) k v = (k0, v0) :: setA rest k v from by
          simp [setA, hk]]
        rw [List.map_cons, List.nodup_cons]
        refine ⟨fun hmem => ?_, ih h.2⟩
        rcases mem_keys_setA rest k v k0 hmem with hx | hx
        · exact h.1 hx
        · exact hk hx

theorem lookupA_of_mem_nodup {α : Type} (l : List (String × α)) (k : String)
    (v : α) (hnd : (l.map Prod.fst).Nodup) (hm : (k, v) ∈ l) :
    lookupA l k = some v := by
  induction l with
  | nil => cases hm
  | cons p rest ih =>
      obtain ⟨k0, v0⟩ := p
      rw [List.map_cons, List.nodup_cons] at hnd
      rcases List.mem_cons.mp hm with hh | hh
      · injection hh with h1 h2
        subst h1
        subst h2
        simp [lookupA]
      · have hne : ¬ k0 = k := by
          intro he
          subst he
          exact hnd.1 (List.mem_map.mpr ⟨(k0, v), hh, rfl⟩)
        simp only [lookupA, if_neg hne]
        exact ih hnd.2 hh

theorem nodup_keys_removeCacheMetadata (store : Store) (id : String)
    (h : (store.map Prod.fst).Nodup) :
    ((removeCacheMetadata store id).map Prod.fst).Nodup := by
  unfold removeCacheMetadata
  rcases hm : lookupA (getCacheMetadata store) id with _ | m
  · simpa [hm] using h
  · simp only [hm]
    exact nodup_keys_setA _ _ _ h

theorem removeCacheMetadata_metadataKey_not_ok (store : Store) (id : String)
    (h : ∀ ts sz d, ¬ lookupA store metadataKey = some (.ok ts sz d)) :
    ∀ ts sz d,
      ¬ lookupA (removeCacheMetadata store id) metadataKey =
        some (.ok ts sz d) := by
  intro ts sz d
  unfold removeCacheMetadata
  rcases hm : lookupA (getCacheMetadata store) id with _ | m
  · simp only [hm]
    exact h ts sz d
  · simp only [hm]
    rw [lookupA_setA_self]
    intro he
    cases he

theorem removeA_metadataKey_not_ok (store : Store) (k : String)
    (h : ∀ ts sz d, ¬ lookupA store metadataKey = some (.ok ts sz d)) :
    ∀ ts sz d,
      ¬ lookupA (removeA store k) metadataKey = some (.ok ts sz d) := by
  intro ts sz d hl
  by_cases he : k = metadataKey
  · subst he
    rw [lookupA_removeA_self] at hl
    cases hl
  · rw [lookupA_removeA_ne _ _ _ he] at hl
    exact h ts sz d hl

theorem mkCacheStore_lookup_entries (xs : List CacheItem)
    (hmd : ∀ it ∈ xs, ¬ it.id = "metadata") :
    lookupA (mkCacheStore xs) metadataKey =
      some (.meta (xs.map (fun it => (it.id, ⟨it.sz, it.ts⟩)))) := by
  unfold mkCacheStore
  rw [lookupA_append]
  have h1 : ∀ (ys : List CacheItem), (∀ it ∈ ys, ¬ it.id = "metadata") →
      lookupA (ys.map fun it => (objKey it.id, StoredVal.ok it.ts it.sz ""))
        metadataKey = none := by
    intro ys
    induction ys with
    | nil => intro _; rfl
    | cons it rest ih =>
        intro hys
        rw [List.map_cons]
        simp only [lookupA]
        rw [if_neg (objKey_ne_metadataKey (hys it (List.mem_cons_self _ _)))]
        exact ih (fun it' h' => hys it' (List.mem_cons_of_mem _ h'))
  rw [h1 xs hmd]
  simp [lookupA]

theorem mkCacheStore_keys_nodup (xs : List CacheItem)
    (hnd : (xs.map CacheItem.id).Nodup)
    (hmd : ∀ it ∈ xs, ¬ it.id = "metadata") :
    ((mkCacheStore xs).map Prod.fst).Nodup := by
  unfold mkCacheStore
  rw [List.map_append, List.map_map]
  have hkeys : xs.map (Prod.fst ∘ fun it => (objKey it.id, StoredVal.ok it.ts it.sz ""))
      = (xs.map CacheItem.id).map objKey := by
    rw [List.map_map]
    exact List.map_congr_left (fun it _ => rfl)
  rw [hkeys]
  rw [show ([(metadataKey,
      StoredVal.meta (xs.map fun it => (it.id, ⟨it.sz, it.ts⟩)))] : Store).map
      Prod.fst = [metadataKey] from rfl]
  rw [List.nodup_append]
  refine ⟨hnd.map (fun a b => objKey_inj), by simp, ?_⟩
  intro a ha hb
  rcases List.mem_map.mp ha with ⟨id0, hid0, rfl⟩
  rcases List.mem_map.mp hid0 with ⟨it, hit, rfl⟩
  have hb' : objKey it.id = metadataKey := by simpa using hb
  exact objKey_ne_metadataKey (hmd it hit) hb'

theorem mkCacheStore_lookup_item (xs : List CacheItem)
    (hnd : (xs.map CacheItem.id).Nodup)
    (hmd : ∀ it ∈ xs, ¬ it.id = "metadata")
    (it : CacheItem) (hm : it ∈ xs) :
    lookupA (mkCacheStore xs) (objKey it.id) = some (.ok it.ts it.sz "") := by
  apply lookupA_of_mem_nodup _ _ _ (mkCacheStore_keys_nodup xs hnd hmd)
  unfold mkCacheStore
  exact List.mem_append_left _ (List.mem_map_of_mem _ hm)

theorem mkCacheStore_sizeBytes (xs : List CacheItem) :
    localStorageCacheSizeBytes (mkCacheStore xs) =
      (xs.map CacheItem.sz).sum := by
  rw [localStorageCacheSizeBytes_eq_sum]
  unfold mkCacheStore
  rw [List.map_append, List.sum_append, List.map_map]
  have h1 : xs.map (objContrib ∘ fun it => (objKey it.id, StoredVal.ok it.ts it.sz ""))
      = xs.map CacheItem.sz := by
    apply List.map_congr_left
    intro it _
    show objContrib (objKey it.id, StoredVal.ok it.ts it.sz "") = it.sz
    unfold objContrib
    rw [if_pos (objKey_ns it.id)]
  rw [h1]
  simp [objContrib_meta]

theorem evictLoop_objNone_mono (total : Nat) (L : List (String × MetaEntry))
    (store : Store) (removed : Nat) (x : String) (hx : ¬ x = "metadata")
    (h : lookupA store (objKey x) = none) :
    lookupA (evictLoop total L store removed) (objKey x) = none := by
  induction L generalizing store removed with
  | nil => exact h
  | cons p rest ih =>
      obtain ⟨id, m⟩ := p
      unfold evictLoop
      by_cases hb : total - removed ≤ EVICT_TARGET_BYTES
      · rw [if_pos hb]
        exact h
      · rw [if_neg hb]
        apply ih
        rw [lookupA_removeCacheMetadata_ne _ _ _
          (fun he => objKey_ne_metadataKey hx he.symm)]
        exact lookupA_removeA_none _ _ _ h

theorem evictLoop_main (total : Nat) (L : List (String × MetaEntry)) :
    ∀ (store : Store) (removed : Nat),
    localStorageCacheSizeBytes store + removed = total →
    localStorageCacheSizeBytes store = (L.map (fun p => p.2.size)).sum →
    (∀ p ∈ L, ∃ d : Payload,
      lookupA store (objKey p.1) = some (.ok p.2.timestamp p.2.size d)) →
    (L.map Prod.fst).Nodup →
    (∀ p ∈ L, ¬ p.1 = "metadata") →
    (∀ ts sz d, ¬ lookupA store metadataKey = some (.ok ts sz d)) →
    (store.map Prod.fst).Nodup →
    List.Pairwise (fun a b => a.2.timestamp ≤ b.2.timestamp) L →
    localStorageCacheSizeBytes (evictLoop total L store removed) ≤
        EVICT_TARGET_BYTES ∧
      (∀ p ∈ L, ∀ q ∈ L,
        lookupA (evictLoop total L store removed) (objKey p.1) = none →
        ¬ lookupA (evictLoop total L store removed) (objKey q.1) = none →
        p.2.timestamp ≤ q.2.timestamp) := by
  induction L with
  | nil =>
      intro store removed hi hii _ _ _ _ _ _
      simp only [List.map_nil, List.sum_nil] at hii
      constructor
      · show localStorageCacheSizeBytes store ≤ _
        omega
      · intro p hp
        cases hp
  | cons head rest ih =>
      obtain ⟨id0, m0⟩ := head
      intro store removed hi hii hiii hiv hv hvi hvii hpw
      rw [List.map_cons, List.sum_cons] at hii
      rw [List.map_cons, List.nodup_cons] at hiv
      have hpw' := List.pairwise_cons.mp hpw
      unfold evictLoop
      by_cases hb : total - removed ≤ EVICT_TARGET_BYTES
      · rw [if_pos hb]
        constructor
        · omega
        · intro p hp q hq hpn _
          rcases hiii p hp with ⟨d, hd⟩
          rw [hd] at hpn
          cases hpn
      · rw [if_neg hb]
        rcases hiii (id0, m0) (List.mem_cons_self _ _) with ⟨d0, hd0⟩
        have hid0 : ¬ id0 = "metadata" := hv (id0, m0) (List.mem_cons_self _ _)
        have hne0 : ¬ metadataKey = objKey id0 :=
          fun he => objKey_ne_metadataKey hid0 he.symm
        have hsz1 : localStorageCacheSizeBytes (removeA store (objKey id0)) +
            m0.size = localStorageCacheSizeBytes store := by
          have h := sizeBytes_removeA store (objKey id0) _ hvii hd0
          rw [show objContrib (objKey id0, StoredVal.ok m0.timestamp m0.size d0) =
            m0.size from by unfold objContrib; rw [if_pos (objKey_ns id0)]] at h
          exact h
        have hvi1 : ∀ ts sz d,
            ¬ lookupA (removeA store (objKey id0)) metadataKey =
              some (.ok ts sz d) :=
          removeA_metadataKey_not_ok store (objKey id0) hvi
        have hsz2 : localStorageCacheSizeBytes
            (removeCacheMetadata (removeA store (objKey id0)) id0) =
            localStorageCacheSizeBytes (removeA store (objKey id0)) := by
          simp only [removeCacheMetadata]
          rcases hm : lookupA (getCacheMetadata (removeA store (objKey id0))) id0
            with _ | mm
          · simp only [hm]
          · simp only [hm]
            exact sizeBytes_setA_meta _ metadataKey _ hvi1
        have hiii2 : ∀ p ∈ rest, ∃ d : Payload,
            lookupA (removeCacheMetadata (removeA store (objKey id0)) id0)
              (objKey p.1) = some (.ok p.2.timestamp p.2.size d) := by
          intro p hp
          rcases hiii p (List.mem_cons_of_mem _ hp) with ⟨d, hd⟩
          refine ⟨d, ?_⟩
          have hpid : ¬ p.1 = id0 := by
            intro he
            apply hiv.1
            rw [← he]
            exact List.mem_map.mpr ⟨p, hp, rfl⟩
          have hmk : ¬ metadataKey = objKey p.1 := fun he =>
            objKey_ne_metadataKey (hv p (List.mem_cons_of_mem _ hp)) he.symm
          have hko : ¬ objKey id0 = objKey p.1 := fun he =>
            hpid (objKey_inj he).symm
          rw [lookupA_removeCacheMetadata_ne _ _ _ hmk,
            lookupA_removeA_ne _ _ _ hko]
          exact hd
        have hvi2 := removeCacheMetadata_metadataKey_not_ok
          (removeA store (objKey id0)) id0 hvi1
        have hvii2 : (((removeCacheMetadata (removeA store (objKey id0)) id0).map
            Prod.fst).Nodup) :=
          nodup_keys_removeCacheMetadata _ _ (nodup_keys_removeA _ _ hvii)
        have hii' : localStorageCacheSizeBytes store =
            m0.size + (rest.map (fun p => p.2.size)).sum := hii
        have hres := ih (removeCacheMetadata (removeA store (objKey id0)) id0)
          (removed + m0.size) (by omega) (by omega) hiii2 hiv.2
          (fun p hp => hv p (List.mem_cons_of_mem _ hp)) hvi2 hvii2 hpw'.2
        have h0none : lookupA (evictLoop total rest
            (removeCacheMetadata (removeA store (objKey id0)) id0)
            (removed + m0.size)) (objKey id0) = none := by
          apply evictLoop_objNone_mono _ _ _ _ _ hid0
          rw [lookupA_removeCacheMetadata_ne _ _ _ hne0]
          exact lookupA_removeA_self _ _
        refine ⟨hres.1, ?_⟩
        intro p hp q hq hpn hqn
        rcases List.mem_cons.mp hp with hp' | hp'
        · rcases List.mem_cons.mp hq with hq' | hq'
          · subst hp'
            subst hq'
            exact absurd hpn hqn
          · subst hp'
            exact hpw'.1 q hq'
        · rcases List.mem_cons.mp hq with hq' | hq'
          · subst hq'
            exact absurd h0none hqn
          · exact hres.2 p hp' q hq' hpn hqn

theorem manageCacheSize_overCap (xs : List CacheItem)
    (hnd : (xs.map CacheItem.id).Nodup)
    (hmd : ∀ it ∈ xs, ¬ it.id = "metadata")
    (hover : localStorageCacheSizeBytes (mkCacheStore xs) >
      MAX_CACHE_SIZE_BYTES) :
    localStorageCacheSizeBytes (manageCacheSize (mkCacheStore xs)) ≤
        EVICT_TARGET_BYTES ∧
      (∀ a ∈ xs, ∀ b ∈ xs,
        lookupA (manageCacheSize (mkCacheStore xs)) (objKey a.id) = none →
        ¬ lookupA (manageCacheSize (mkCacheStore xs)) (objKey b.id) = none →
        a.ts ≤ b.ts) := by
  have hmeta : getCacheMetadata (mkCacheStore xs) =
      xs.map (fun it => (it.id, (⟨it.sz, it.ts⟩ : MetaEntry))) := by
    unfold getCacheMetadata
    rw [mkCacheStore_lookup_entries xs hmd]
  set metaL := xs.map (fun it => (it.id, (⟨it.sz, it.ts⟩ : MetaEntry)))
    with hmetaL
  set sortedL := metaL.insertionSort (fun a b => a.2.timestamp ≤ b.2.timestamp)
    with hsortedL
  have hperm : List.Perm sortedL metaL := metaL.perm_insertionSort _
  have hms : manageCacheSize (mkCacheStore xs) =
      evictLoop (localStorageCacheSizeBytes (mkCacheStore xs)) sortedL
        (mkCacheStore xs) 0 := by
    unfold manageCacheSize
    rw [if_pos hover, hmeta]
  have hkeysL : metaL.map Prod.fst = xs.map CacheItem.id := by
    rw [hmetaL, List.map_map]
    exact List.map_congr_left (fun it _ => rfl)
  have hii : localStorageCacheSizeBytes (mkCacheStore xs) =
      (sortedL.map (fun p => p.2.size)).sum := by
    rw [(hperm.map (fun p => p.2.size)).sum_eq, mkCacheStore_sizeBytes]
    rw [hmetaL, List.map_map]
    rfl
  have hiii : ∀ p ∈ sortedL, ∃ d : Payload,
      lookupA (mkCacheStore xs) (objKey p.1) =
        some (.ok p.2.timestamp p.2.size d) := by
    intro p hp
    rcases List.mem_map.mp (hperm.mem_iff.mp hp) with ⟨it, hit, rfl⟩
    exact ⟨"", mkCacheStore_lookup_item xs hnd hmd it hit⟩
  have hiv : (sortedL.map Prod.fst).Nodup := by
    rw [(hperm.map Prod.fst).nodup_iff]
    rw [hkeysL]
    exact hnd
  have hv : ∀ p ∈ sortedL, ¬ p.1 = "metadata" := by
    intro p hp
    rcases List.mem_map.mp (hperm.mem_iff.mp hp) with ⟨it, hit, rfl⟩
    exact hmd it hit
  have hvi : ∀ ts sz d,
      ¬ lookupA (mkCacheStore xs) metadataKey = some (.ok ts sz d) := by
    intro ts sz d h
    rw [mkCacheStore_lookup_entries xs hmd] at h
    injection h with h
    exact StoredVal.noConfusion h
  have hpw : List.Pairwise (fun a b => a.2.timestamp ≤ b.2.timestamp) sortedL :=
    List.sorted_insertionSort _ metaL
  have hmain := evictLoop_main (localStorageCacheSizeBytes (mkCacheStore xs))
    sortedL (mkCacheStore xs) 0 (by omega) hii hiii hiv hv hvi
    (mkCacheStore_keys_nodup xs hnd hmd) hpw
  rw [hms]
  refine ⟨hmain.1, ?_⟩
  intro a ha b hb hna hnb
  exact hmain.2 (a.id, ⟨a.sz, a.ts⟩)
    (hperm.mem_iff.mpr (List.mem_map.mpr ⟨a, ha, rfl⟩))
    (b.id, ⟨b.sz, b.ts⟩)
    (hperm.mem_iff.mpr (List.mem_map.mpr ⟨b, hb, rfl⟩)) hna hnb

theorem passKeys_of_ge (b : Bool) (maxR : Nat) (L : List CleanEntry) :
    ∀ r, maxR ≤ r → passKeys b maxR L r = [] := by
  induction L with
  | nil => intro r _; rfl
  | cons e rest ih =>
      intro r hr
      unfold passKeys
      rw [if_neg (by omega)]
      exact ih r hr

theorem passKeys_eq_take (b : Bool) (maxR : Nat) (L : List CleanEntry) :
    ∀ r, passKeys b maxR L r =
      ((L.filter (fun e => e.isExpired = b)).take (maxR - r)).map
        CleanEntry.key := by
  induction L with
  | nil => intro r; simp [passKeys]
  | cons e rest ih =>
      intro r
      unfold passKeys
      by_cases hc1 : e.isExpired = b
      · by_cases hc2 : r < maxR
        · rw [if_pos ⟨hc1, hc2⟩, List.filter_cons_of_pos (by simp [hc1]),
            show maxR - r = (maxR - (r + 1)) + 1 from by omega, List.take_succ_cons,
            List.map_cons, ih (r + 1)]
        · rw [if_neg (by tauto), List.filter_cons_of_pos (by simp [hc1]),
            show maxR - r = 0 from by omega, List.take_zero, List.map_nil]
          exact passKeys_of_ge b maxR rest r (by omega)
      · rw [if_neg (by tauto), List.filter_cons_of_neg (by simp [hc1]), ih r]

theorem removePass_fst (b : Bool) (maxR : Nat) (L : List CleanEntry) :
    ∀ (store : Store) (r : Nat),
    (removePass b maxR L store r).1 = (passKeys b maxR L r).foldl removeA store := by
  induction L with
  | nil => intro store r; rfl
  | cons e rest ih =>
      intro store r
      unfold removePass passKeys
      by_cases hc : e.isExpired = b ∧ r < maxR
      · rw [if_pos hc, if_pos hc, ih, List.foldl_cons]
      · rw [if_neg hc, if_neg hc, ih]

theorem removePass_snd (b : Bool) (maxR : Nat) (L : List CleanEntry) :
    ∀ (store : Store) (r : Nat),
    (removePass b maxR L store r).2 = r + (passKeys b maxR L r).length := by
  induction L with
  | nil => intro store r; simp [removePass, passKeys]
  | cons e rest ih =>
      intro store r
      unfold removePass passKeys
      by_cases hc : e.isExpired = b ∧ r < maxR
      · rw [if_pos hc, if_pos hc, ih, List.length_cons]
        omega
      · rw [if_neg hc, if_neg hc, ih]

theorem length_filter_expired_partition (L : List CleanEntry) :
    (L.filter (fun e => e.isExpired = true)).length +
      (L.filter (fun e => e.isExpired = false)).length = L.length := by
  induction L with
  | nil => rfl
  | cons e rest ih =>
      cases he : e.isExpired
      · rw [List.filter_cons_of_neg (by simp [he]),
          List.filter_cons_of_pos (by simp [he]), List.length_cons,
          List.length_cons]
        omega
      · rw [List.filter_cons_of_pos (by simp [he]),
          List.filter_cons_of_neg (by simp [he]), List.length_cons,
          List.length_cons]
        omega

theorem collect_keys_sublist (store : Store) (now : Int) :
    List.Sublist ((collectCleanEntries store now).map CleanEntry.key)
      (store.map Prod.fst) := by
  induction store with
  | nil => exact List.Sublist.refl _
  | cons p rest ih =>
      unfold collectCleanEntries at ih ⊢
      rw [List.filterMap_cons]
      rcases hf : collectOne now p with _ | e
      · rw [List.map_cons]
        exact ih.cons p.1
      · rw [List.map_cons, List.map_cons,
          (collectOne_key now p e hf).1]
        exact ih.cons₂ p.1

theorem mem_collect_lookup (store : Store) (now : Int) (e : CleanEntry)
    (hnd : (store.map Prod.fst).Nodup) (he : e ∈ collectCleanEntries store now) :
    ∃ v, lookupA store e.key = some v := by
  rcases List.mem_filterMap.mp he with ⟨p, hp, hf⟩
  refine ⟨p.2, ?_⟩
  rw [(collectOne_key now p e hf).1]
  exact lookupA_of_mem_nodup store p.1 p.2 hnd (by
    rcases p with ⟨k0, v0⟩
    exact hp)

theorem cleanOldCacheEntries_spec (store : Store) (now : Int) (maxR : Nat) :
    (cleanOldCacheEntries store now maxR).2 =
      min maxR (collectCleanEntries store now).length ∧
    ((store.map Prod.fst).Nodup →
      (∀ e ∈ collectCleanEntries store now,
       ∀ e' ∈ collectCleanEntries store now,
        e.isExpired = true → e'.isExpired = false →
        lookupA (cleanOldCacheEntries store now maxR).1 e'.key = none →
        lookupA (cleanOldCacheEntries store now maxR).1 e.key = none) ∧
      (∀ e ∈ collectCleanEntries store now,
       ∀ e' ∈ collectCleanEntries store now,
        e.isExpired = false → e'.isExpired = false →
        lookupA (cleanOldCacheEntries store now maxR).1 e.key = none →
        ¬ lookupA (cleanOldCacheEntries store now maxR).1 e'.key = none →
        e.timestamp ≤ e'.timestamp)) := by
  set C := collectCleanEntries store now with hC
  set sorted := C.insertionSort (fun a b => a.timestamp ≤ b.timestamp) with hS
  have hperm : List.Perm sorted C := C.perm_insertionSort _
  set EL := sorted.filter (fun e => e.isExpired = true) with hEL
  set FL := sorted.filter (fun e => e.isExpired = false) with hFL
  set keys1 := passKeys true maxR sorted 0 with hk1
  set keys2 := passKeys false maxR sorted keys1.length with hk2
  have hfst : (cleanOldCacheEntries store now maxR).1 =
      keys2.foldl removeA (keys1.foldl removeA store) := by
    simp only [cleanOldCacheEntries]
    rw [removePass_fst, removePass_snd, removePass_fst, Nat.zero_add]
  have hsnd : (cleanOldCacheEntries store now maxR).2 =
      keys1.length + keys2.length := by
    simp only [cleanOldCacheEntries]
    rw [removePass_snd, removePass_snd]
    simp only [Nat.zero_add]
  have hlen1 : keys1.length = min maxR EL.length := by
    rw [hk1, passKeys_eq_take, List.length_map, List.length_take, Nat.sub_zero]
  have hlen2 : keys2.length = min (maxR - keys1.length) FL.length := by
    rw [hk2, passKeys_eq_take, List.length_map, List.length_take]
  have hpart : EL.length + FL.length = sorted.length :=
    length_filter_expired_partition sorted
  have hlenC : sorted.length = C.length := hperm.length_eq
  have hmem_removed : ∀ k, k ∈ keys1 ∨ k ∈ keys2 →
      lookupA (cleanOldCacheEntries store now maxR).1 k = none := by
    intro k hk
    rw [hfst]
    rcases hk with hk | hk
    · exact lookupA_foldl_removeA_none _ _ _
        (lookupA_foldl_removeA_mem _ _ _ hk)
    · exact lookupA_foldl_removeA_mem _ _ _ hk
  have hframe : ∀ k, k ∉ keys1 → k ∉ keys2 →
      lookupA (cleanOldCacheEntries store now maxR).1 k = lookupA store k := by
    intro k h1 h2
    rw [hfst, lookupA_foldl_removeA_not_mem _ _ _ h2,
      lookupA_foldl_removeA_not_mem _ _ _ h1]
  refine ⟨by rw [hsnd]; omega, fun hnd => ?_⟩
  have hndk : (sorted.map CleanEntry.key).Nodup := by
    rw [(hperm.map CleanEntry.key).nodup_iff]
    exact hnd.sublist (collect_keys_sublist store now)
  have hinj := List.inj_on_of_nodup_map hndk
  have hpwS : List.Pairwise (fun a b => a.timestamp ≤ b.timestamp) sorted :=
    List.sorted_insertionSort _ C
  constructor
  · intro e he e' he' hex hef hnone
    have hes : e ∈ sorted := hperm.mem_iff.mpr he
    have hes' : e' ∈ sorted := hperm.mem_iff.mpr he'
    rcases mem_collect_lookup store now e' hnd he' with ⟨v, hv⟩
    have hin : e'.key ∈ keys1 ∨ e'.key ∈ keys2 := by
      by_contra hcon
      push_neg at hcon
      rw [hframe _ hcon.1 hcon.2, hv] at hnone
      cases hnone
    have hnot1 : e'.key ∉ keys1 := by
      intro hk
      rw [hk1, passKeys_eq_take] at hk
      rcases List.mem_map.mp hk with ⟨ee, hee, heq⟩
      have hee2 : ee ∈ EL := List.mem_of_mem_take hee
      have hee3 : ee ∈ sorted := List.mem_of_mem_filter hee2
      have heq2 : ee = e' := hinj hee3 hes' heq
      have : ee.isExpired = true := by
        have := (List.mem_filter.mp hee2).2
        simpa using this
      rw [heq2, hef] at this
      cases this
    have hin2 : e'.key ∈ keys2 := hin.resolve_left hnot1
    have hlt : keys1.length < maxR := by
      by_contra hge
      push_neg at hge
      rw [hk2, passKeys_of_ge false maxR sorted keys1.length hge] at hin2
      cases hin2
    have hEle : EL.length ≤ maxR := by omega
    have hall : keys1 = EL.map CleanEntry.key := by
      rw [hk1, passKeys_eq_take, Nat.sub_zero, List.take_of_length_le hEle]
    have heEL : e ∈ EL := List.mem_filter.mpr ⟨hes, by simp [hex]⟩
    apply hmem_removed
    left
    rw [hall]
    exact List.mem_map.mpr ⟨e, heEL, rfl⟩
  · intro e he e' he' hef hef' hnone hkept
    have hes : e ∈ sorted := hperm.mem_iff.mpr he
    have hes' : e' ∈ sorted := hperm.mem_iff.mpr he'
    rcases mem_collect_lookup store now e hnd he with ⟨v, hv⟩
    have hin : e.key ∈ keys1 ∨ e.key ∈ keys2 := by
      by_contra hcon
      push_neg at hcon
      rw [hframe _ hcon.1 hcon.2, hv] at hnone
      cases hnone
    have hnot1 : e.key ∉ keys1 := by
      intro hk
      rw [hk1, passKeys_eq_take] at hk
      rcases List.mem_map.mp hk with ⟨ee, hee, heq⟩
      have hee2 : ee ∈ EL := List.mem_of_mem_take hee
      have hee3 : ee ∈ sorted := List.mem_of_mem_filter hee2
      have heq2 : ee = e := hinj hee3 hes heq
      have : ee.isExpired = true := by
        have := (List.mem_filter.mp hee2).2
        simpa using this
      rw [heq2, hef] at this
      cases this
    have hin2 : e.key ∈ keys2 := hin.resolve_left hnot1
    have heTake : e ∈ FL.take (maxR - keys1.length) := by
      rw [hk2, passKeys_eq_take] at hin2
      rcases List.mem_map.mp hin2 with ⟨ee, hee, heq⟩
      have hee3 : ee ∈ sorted :=
        List.mem_of_mem_filter (List.mem_of_mem_take hee)
      have heq2 : ee = e := hinj hee3 hes heq
      rw [← heq2]
      exact hee
    have he'FL : e' ∈ FL := List.mem_filter.mpr ⟨hes', by simp [hef']⟩
    have he'NotTake : e' ∉ FL.take (maxR - keys1.length) := by
      intro hk
      apply hkept
      apply hmem_removed
      right
      rw [hk2, passKeys_eq_take]
      exact List.mem_map.mpr ⟨e', hk, rfl⟩
    have hsplit : FL.take (maxR - keys1.length) ++ FL.drop (maxR - keys1.length)
        = FL := List.take_append_drop _ _
    have he'Drop : e' ∈ FL.drop (maxR - keys1.length) := by
      have he'App : e' ∈ FL.take (maxR - keys1.length) ++
          FL.drop (maxR - keys1.length) := by
        rw [hsplit]
        exact he'FL
      rcases List.mem_append.mp he'App with h | h
      · exact absurd h he'NotTake
      · exact h
    have hpwFL : List.Pairwise (fun a b => a.timestamp ≤ b.timestamp) FL :=
      List.Pairwise.sublist (List.filter_sublist sorted) hpwS
    have hpwApp : List.Pairwise (fun a b => a.timestamp ≤ b.timestamp)
        (FL.take (maxR - keys1.length) ++ FL.drop (maxR - keys1.length)) := by
      rw [hsplit]
      exact hpwFL
    exact (List.pairwise_append.mp hpwApp).2.2 e heTake e' he'Drop

/-- C7: size-bound enforcement of the two bounded profiles. For the
byte-size-bounded profile, on any consistently mirrored store whose
namespaced usage exceeds the 50 MB cap, manageCacheSize terminates with
usage at or below the eviction target, which is exactly 80 percent of the
cap, and every evicted entry is at least as old as every surviving entry.
For the count-bounded profile, cleanOldCacheEntries removes exactly
min(maxToRemove, entry count) entries, the default batch being 30 percent
of the 1000-entry maximum; whenever a fresh entry was removed every expired
entry was removed too, and among fresh entries the removed ones are at
least as old as the surviving ones. -/
theorem C7_enforceSizeBound :
    (MAX_CACHE_SIZE_BYTES = 50 * 1024 * 1024 ∧
      EVICT_TARGET_BYTES * 10 = MAX_CACHE_SIZE_BYTES * 8) ∧
    (MAX_ENTRIES = 1000 ∧ DEFAULT_MAX_TO_REMOVE * 10 = MAX_ENTRIES * 3) ∧
    (∀ xs : List CacheItem,
      (xs.map CacheItem.id).Nodup →
      (∀ it ∈ xs, ¬ it.id = "metadata") →
      localStorageCacheSizeBytes (mkCacheStore xs) > MAX_CACHE_SIZE_BYTES →
      localStorageCacheSizeBytes (manageCacheSize (mkCacheStore xs)) ≤
          EVICT_TARGET_BYTES ∧
        (∀ a ∈ xs, ∀ b ∈ xs,
          lookupA (manageCacheSize (mkCacheStore xs)) (objKey a.id) = none →
          ¬ lookupA (manageCacheSize (mkCacheStore xs)) (objKey b.id) = none →
          a.ts ≤ b.ts)) ∧
    (∀ (store : Store) (now : Int) (maxR : Nat),
      (cleanOldCacheEntries store now maxR).2 =
        min maxR (collectCleanEntries store now).length) ∧
    (∀ (store : Store) (now : Int) (maxR : Nat),
      (store.map Prod.fst).Nodup →
      (∀ e ∈ collectCleanEntries store now,
       ∀ e' ∈ collectCleanEntries store now,
        e.isExpired = true → e'.isExpired = false →
        lookupA (cleanOldCacheEntries store now maxR).1 e'.key = none →
        lookupA (cleanOldCacheEntries store now maxR).1 e.key = none) ∧
      (∀ e ∈ collectCleanEntries store now,
       ∀ e' ∈ collectCleanEntries store now,
        e.isExpired = false → e'.isExpired = false →
        lookupA (cleanOldCacheEntries store now maxR).1 e.key = none →
        ¬ lookupA (cleanOldCacheEntries store now maxR).1 e'.key = none →
        e.timestamp ≤ e'.timestamp)) := by
  refine ⟨⟨by decide, by decide⟩, ⟨by decide, by decide⟩, ?_, ?_, ?_⟩
  · exact fun xs hnd hmd hover => manageCacheSize_overCap xs hnd hmd hover
  · exact fun store now maxR => (cleanOldCacheEntries_spec store now maxR).1
  · exact fun store now maxR hnd => (cleanOldCacheEntries_spec store now maxR).2 hnd

/-- C7 witness: two 30 MB entries exceed the 50 MB cap; after
manageCacheSize the usage is back under the 40 MB eviction target. The
count-profile removal count evaluates on a one-entry store. -/
theorem C7_enforceSizeBound_witness :
    localStorageCacheSizeBytes (manageCacheSize (mkCacheStore
      [⟨"a", 31457280, 1⟩, ⟨"b", 31457280, 2⟩])) ≤ EVICT_TARGET_BYTES ∧
    (cleanOldCacheEntries [(getCacheKey "r1" false, .ok 0 4 "d")] 0 300).2 =
      min 300 (collectCleanEntries
        [(getCacheKey "r1" false, .ok 0 4 "d")] 0).length := by
  constructor
  · exact (C7_enforceSizeBound.2.2.1
      [⟨"a", 31457280, 1⟩, ⟨"b", 31457280, 2⟩]
      (by decide) (by decide) (by decide)).1
  · exact C7_enforceSizeBound.2.2.2.1
      [(getCacheKey "r1" false, .ok 0 4 "d")] 0 300

end OSMObjects
